import Mathlib

/-!
Verification of the dbmate migration engine (`pkg/dbmate/db.go`) against its
natural-language specification.

The Go source is shallowly embedded: pure helpers become Lean functions, and
the stateful engine operations (`Migrate`, `Rollback`, `Status`, `DumpSchema`,
`Wait`, `doTransaction`) become functions over an explicit database state plus
an environment record that stands for the external collaborators (the
directory listing, file contents, and the per-backend Driver, which the spec
declares out of scope).  Observable side effects (connection open/close,
per-file progress prints, statement execution, bookkeeping mutations) are
recorded in an event trace so that theorems can speak about them.

Go strings are modelled by Lean `String`; all string operations used by the
engine are re-implemented structurally over `String.data` so that they reduce
inside the kernel (byte-wise lexicographic comparison on UTF-8 strings agrees
with code-point lexicographic comparison, which is what `charListLe` does).
-/

/-! ## String utilities (models of Go stdlib behaviour) -/

/-- Code-point lexicographic comparison of character lists.  Models Go's
byte-wise `<=` on UTF-8 strings, whose order coincides with code-point order. -/
def charListLe : List Char → List Char → Bool
  | [], _ => true
  | _ :: _, [] => false
  | a :: as, b :: bs => if a < b then true else if b < a then false else charListLe as bs

/-- Lexicographic `<=` on strings, as used by Go's `sort.Strings`. -/
def strLeB (a b : String) : Bool := charListLe a.data b.data

/-- Insert into a sorted list, keeping it sorted (helper for `sortStrings`). -/
def insertStr (a : String) : List String → List String
  | [] => [a]
  | b :: bs => if strLeB a b then a :: b :: bs else b :: insertStr a bs

/-- Model of Go's `sort.Strings`: produces the lexicographically ascending
reordering of the input.  (Any sorting algorithm yields the same list, since
sorted permutations agree; insertion sort keeps the definition structural.) -/
def sortStrings : List String → List String
  | [] => []
  | a :: as => insertStr a (sortStrings as)

/-- Model of Go's `unicode.IsSpace` restricted to the Latin-1 range
(space, tab, newline, vertical tab, form feed, carriage return, NEL, NBSP).
Wider Unicode space classes are omitted; no theorem below depends on them. -/
def goSpace (c : Char) : Bool :=
  c = ' ' || c = '\t' || c = '\n' || c = Char.ofNat 11 || c = Char.ofNat 12 || c = '\r'
    || c = Char.ofNat 133 || c = Char.ofNat 160

/-- Model of Go's `strings.TrimSpace`: drop `goSpace` characters from both ends. -/
def trimGo (s : String) : String :=
  ⟨((s.data.dropWhile goSpace).reverse.dropWhile goSpace).reverse⟩

/-- Split a character list into lines at `'\n'` (model of splitting a file
into lines; the separators are not kept). -/
def splitLinesAux : List Char → List Char → List (List Char)
  | [], cur => [cur.reverse]
  | c :: cs, cur =>
    if c = '\n' then cur.reverse :: splitLinesAux cs [] else splitLinesAux cs (c :: cur)

/-- Lines of a string, split at `'\n'`. -/
def splitLines (s : String) : List (List Char) := splitLinesAux s.data []

/-- Join lines back with `'\n'` separators (inverse of `splitLines`). -/
def joinLines : List (List Char) → List Char
  | [] => []
  | [l] => l
  | l :: ls => l ++ '\n' :: joinLines ls

/-- Split a line into whitespace-separated words (space or tab), dropping
empty fragments. -/
def lineWordsAux : List Char → List Char → List (List Char)
  | [], cur => if cur.isEmpty then [] else [cur.reverse]
  | c :: cs, cur =>
    if c = ' ' || c = '\t' then
      if cur.isEmpty then lineWordsAux cs [] else cur.reverse :: lineWordsAux cs []
    else lineWordsAux cs (c :: cur)

/-- Whitespace-separated words of a line. -/
def lineWords (l : List Char) : List (List Char) := lineWordsAux l []

/-! ## Statement splitter (`parseStatements`, db.go lines 268-302)

The Go function tokenises the script with `text/scanner` configured so that:
only `'\r'` remains whitespace (the bits for space, tab and newline are
cleared); identifier scanning is disabled (`IsIdentRune` is constantly
false); character-literal scanning is disabled (`Mode ^= ScanChars`), while
double-quoted strings, raw back-quoted strings, numbers and Go comments
(with `SkipComments`) remain enabled.  Every token's text is appended to the
current accumulator, so tokens that reproduce their source text verbatim
(runes, numbers, strings) are indistinguishable from copying character by
character; the observable deviations from verbatim copying are: `'\r'` is
skipped, `//...` and `/*...*/` comments are skipped, and a `';'` inside a
double-quoted or back-quoted token does not end a statement.  The state
machine below embeds exactly that behaviour.  (Inside `scanEscape` Go
consumes a full escape sequence; the model consumes a single character after
a backslash — no theorem below exercises multi-character escapes.) -/

/-- Scanner state for the embedded `parseStatements`. -/
inductive ScanSt where
  | normal
  | slash
  | lineComment
  | blockComment
  | blockStar
  | dquote
  | dquoteEsc
  | bquote
  deriving DecidableEq, Repr

/-- The accumulator-closing rule of `parseStatements`: a statement is kept
only if it is non-empty after trimming surrounding whitespace. -/
def psClose (stmt : String) (acc : List String) : List String :=
  if trimGo stmt = "" then acc else acc ++ [stmt]

/-- Back-quote character (0x60). -/
def bq : Char := Char.ofNat 96

/-- Character-level embedding of `parseStatements`' scan loop. -/
def parseStatementsAux : List Char → ScanSt → String → List String → List String
  | [], st, stmt, acc =>
    match st with
    | .slash => psClose (stmt.push '/') acc
    | _ => psClose stmt acc
  | c :: cs, .normal, stmt, acc =>
    if c = '\r' then parseStatementsAux cs .normal stmt acc
    else if c = ';' then parseStatementsAux cs .normal "" (psClose stmt acc)
    else if c = '/' then parseStatementsAux cs .slash stmt acc
    else if c = '"' then parseStatementsAux cs .dquote (stmt.push c) acc
    else if c = bq then parseStatementsAux cs .bquote (stmt.push c) acc
    else parseStatementsAux cs .normal (stmt.push c) acc
  | c :: cs, .slash, stmt, acc =>
    if c = '/' then parseStatementsAux cs .lineComment stmt acc
    else if c = '*' then parseStatementsAux cs .blockComment stmt acc
    else if c = '\r' then parseStatementsAux cs .normal (stmt.push '/') acc
    else if c = ';' then parseStatementsAux cs .normal "" (psClose (stmt.push '/') acc)
    else if c = '"' then parseStatementsAux cs .dquote ((stmt.push '/').push c) acc
    else if c = bq then parseStatementsAux cs .bquote ((stmt.push '/').push c) acc
    else parseStatementsAux cs .normal ((stmt.push '/').push c) acc
  | c :: cs, .lineComment, stmt, acc =>
    if c = '\n' then parseStatementsAux cs .normal (stmt.push c) acc
    else parseStatementsAux cs .lineComment stmt acc
  | c :: cs, .blockComment, stmt, acc =>
    if c = '*' then parseStatementsAux cs .blockStar stmt acc
    else parseStatementsAux cs .blockComment stmt acc
  | c :: cs, .blockStar, stmt, acc =>
    if c = '/' then parseStatementsAux cs .normal stmt acc
    else if c = '*' then parseStatementsAux cs .blockStar stmt acc
    else parseStatementsAux cs .blockComment stmt acc
  | c :: cs, .dquote, stmt, acc =>
    if c = '"' then parseStatementsAux cs .normal (stmt.push c) acc
    else if c = '\\' then parseStatementsAux cs .dquoteEsc (stmt.push c) acc
    else if c = '\n' then parseStatementsAux cs .normal (stmt.push c) acc
    else parseStatementsAux cs .dquote (stmt.push c) acc
  | c :: cs, .dquoteEsc, stmt, acc => parseStatementsAux cs .dquote (stmt.push c) acc
  | c :: cs, .bquote, stmt, acc =>
    if c = bq then parseStatementsAux cs .normal (stmt.push c) acc
    else parseStatementsAux cs .bquote (stmt.push c) acc

/-- Embedding of `parseStatements` (db.go lines 268-302). -/
def parseStatements (script : String) : List String :=
  parseStatementsAux script.data .normal "" []

/-- Definition following the spec's words (section 4.3), for comparison with
the source-derived `parseStatements`: every character is copied verbatim
except a literal `';'`, which closes the current accumulator as one statement
if it is non-empty after trimming surrounding whitespace; end of input closes
the final accumulator under the same rule. -/
def splitSpecAux : List Char → String → List String → List String
  | [], stmt, acc => if trimGo stmt = "" then acc else acc ++ [stmt]
  | c :: cs, stmt, acc =>
    if c = ';' then
      splitSpecAux cs "" (if trimGo stmt = "" then acc else acc ++ [stmt])
    else splitSpecAux cs (stmt.push c) acc

/-- The statement splitter exactly as the spec describes it. -/
def splitSpec (script : String) : List String := splitSpecAux script.data "" []

/-! ## Migration file store (db.go lines 404-451) -/

/-- Does `name` match `migrationFileRegexp`, i.e. the Go regexp
`^\d.*\.sql$`?  Decomposed: a leading digit, then any characters other than
newline, then the suffix `".sql"` at the very end of the name. -/
def migrationFileMatch (name : String) : Bool :=
  match name.data with
  | [] => false
  | c :: _ =>
    c.isDigit && ".sql".data.length + 1 ≤ name.data.length &&
      ".sql".data.isSuffixOf name.data &&
      ((name.data.drop 1).take (name.data.length - 5)).all (fun ch => ch ≠ '\n')

/-- Does `name` match the Rollback lookup regexp `^<ver>.*\.sql$` built by
`findMigrationFile` (the version is quoted, hence matched literally)? -/
def verFileMatch (ver name : String) : Bool :=
  ver.data.isPrefixOf name.data &&
    ver.data.length + ".sql".data.length ≤ name.data.length &&
    ".sql".data.isSuffixOf name.data &&
    ((name.data.drop ver.data.length).take (name.data.length - (ver.data.length + 4))).all
      (fun ch => ch ≠ '\n')

/-- Embedding of `migrationVersion` (db.go lines 449-451): the regexp
`^\d+` returns the longest leading run of digits (empty if none). -/
def migrationVersion (filename : String) : String :=
  ⟨filename.data.takeWhile Char.isDigit⟩

/-- Embedding of `findMigrationFiles` (db.go lines 404-427): fails when the
directory cannot be read, otherwise keeps the (non-directory) entries whose
name matches `re` and sorts them with `sort.Strings`.  `listing` holds the
names of the non-directory entries of the migrations directory; `readDirOk`
models whether `ioutil.ReadDir` succeeds. -/
def findMigrationFilesM (listing : List String) (readDirOk : Bool)
    (re : String → Bool) : Except String (List String) :=
  if readDirOk then .ok (sortStrings (listing.filter re))
  else .error "could not find migrations directory"

/-! ## Migration parser (not under src/)

Modelled from the spec: the `parseMigration` function called at db.go lines
368 and 491 lives in a repository file that is not part of src/.  Spec
sections 4.2 and 6 describe it: a section starts at a marker line
`-- migrate:up` / `-- migrate:down`, optionally followed by
whitespace-separated `key:value` option tokens of which only `transaction`
(boolean-like, defaulting to true when absent) is interpreted; a section's
contents are the verbatim text between its marker and the next marker (or
end of file); parsing fails when the file has no recognizable section
marker. -/

/-- One parsed migration section: verbatim contents plus the interpreted
`transaction` option (spec data model `MigrationScript`). -/
structure MigrationScript where
  contents : String
  transaction : Bool
  deriving DecidableEq, Repr

/-- Modelled from the spec: recognise a marker line and return its direction
(`true` for up) and its trailing option tokens. -/
def markerDir (line : List Char) : Option (Bool × List (List Char)) :=
  match lineWords line with
  | w1 :: w2 :: opts =>
    if w1 = "--".data then
      if w2 = "migrate:up".data then some (true, opts)
      else if w2 = "migrate:down".data then some (false, opts)
      else none
    else none
  | _ => none

/-- Modelled from the spec: the `transaction` option of a marker line,
defaulting to true when absent; the boolean-like value `false` disables it. -/
def optTransaction (opts : List (List Char)) : Bool :=
  match opts.findSome? (fun w =>
      if "transaction:".data.isPrefixOf w then some (w.drop "transaction:".data.length)
      else none) with
  | some v => !(v = "false".data : Bool)
  | none => true

/-- Accumulator for the line scan of `parseMigration`. -/
structure ParseAcc where
  cur : Option Bool
  seen : Bool
  upLines : List (List Char)
  downLines : List (List Char)
  upTx : Bool
  downTx : Bool

/-- Modelled from the spec: scan the lines of a migration file, routing each
line into the section opened by the last marker seen. -/
def parseMigrationAux : List (List Char) → ParseAcc → ParseAcc
  | [], m => m
  | ln :: rest, m =>
    match markerDir ln with
    | some (true, opts) =>
      parseMigrationAux rest { m with cur := some true, seen := true, upTx := optTransaction opts }
    | some (false, opts) =>
      parseMigrationAux rest { m with cur := some false, seen := true, downTx := optTransaction opts }
    | none =>
      match m.cur with
      | none => parseMigrationAux rest m
      | some true => parseMigrationAux rest { m with upLines := m.upLines ++ [ln] }
      | some false => parseMigrationAux rest { m with downLines := m.downLines ++ [ln] }

/-- Modelled from the spec: `parseMigration` on the text of a migration file,
returning the Up and Down scripts (either may be empty when its marker is
missing) or a parse error when no marker is present at all. -/
def parseMigration (text : String) : Except String (MigrationScript × MigrationScript) :=
  let m := parseMigrationAux (splitLines text) ⟨none, false, [], [], true, true⟩
  if m.seen then
    .ok (⟨⟨joinLines m.upLines⟩, m.upTx⟩, ⟨⟨joinLines m.downLines⟩, m.downTx⟩)
  else .error "parse error: no migrate sections"

/-! ## Engine state, configuration, environment, events -/

/-- Errors surfaced by the engine operations (section 7 of the spec). -/
inductive Err where
  | dirNotFound
  | noMigrationFiles
  | waitFailed
  | openFailed
  | tableFailed
  | parseFailed
  | execFailed (stmt : String)
  | migrationNotFound (ver : String)
  | nothingToRollBack
  | dumpFailed
  deriving DecidableEq, Repr

/-- Observable events of one engine operation: connection lifecycle, progress
prints, script execution (with the engine-mode banner printed by
`executeScript`), and bookkeeping mutations. -/
inductive Event where
  | openConn
  | closeConn
  | applying (filename : String)
  | rollingBack (filename : String)
  | engineMode (native : Bool)
  | execNative (script : String)
  | execStmt (stmt : String)
  | insertVersion (ver : String)
  | deleteVersion (ver : String)
  deriving DecidableEq, Repr

/-- The database-resident state the engine manipulates: the applied-version
set (bookkeeping rows, in insertion order) and the committed schema effects
(the statements the backend has durably executed). -/
structure DbState where
  applied : List String
  ops : List String
  deriving DecidableEq, Repr

/-- The engine configuration: the fields of the Go `DB` struct the claims
exercise (db.go lines 32-41). -/
structure DB where
  autoDumpSchema : Bool
  scheme : String
  nativeEngine : Bool
  waitBefore : Bool
  deriving DecidableEq, Repr

/-- The external collaborators of one engine run: the migrations directory
(listing plus per-file text) and the behaviour of the Driver (whether
connecting, provisioning the bookkeeping table, pinging and dumping
succeed, and which statements fail to execute).  The spec declares the
Driver an external capability, so it is an input of the model. -/
structure Env where
  listing : List String
  readDirOk : Bool
  fileText : String → String
  execFails : String → Bool
  waitOk : Bool
  openOk : Bool
  createTableOk : Bool
  dumpOk : Bool

/-- Result of one engine operation: final database state, event trace,
and error (none on success). -/
structure OpResult where
  state : DbState
  trace : List Event
  err : Option Err

/-- Embedding of db.go line 352 / 468: native execution is used only when
the `NativeEngine` flag is set and the URL scheme is not "oracle". -/
def useNative (db : DB) : Bool := db.nativeEngine && !(db.scheme = "oracle" : Bool)

/-- Modelled from the spec: `Driver.SelectMigrations(conn, limit)`. With
limit 1 the query is bounded to the latest (most recently applied) entry;
with limit -1 it returns the whole applied-version set (spec sections 3
and 4.6). -/
def selectMigrations (applied : List String) (limit : Int) : List String :=
  if limit = 1 then
    match applied.getLast? with
    | some v => [v]
    | none => []
  else applied

/-- Embedding of `openDatabaseForMigration` (db.go lines 249-266): open a
connection, then provision the bookkeeping table, closing the connection
again if provisioning fails.  Returns the open/close events produced. -/
def openDB (env : Env) : Except (List Event × Err) (List Event) :=
  if !env.openOk then .error ([], .openFailed)
  else if !env.createTableOk then .error ([.openConn, .closeConn], .tableFailed)
  else .ok [.openConn]

/-! ## Script execution and transaction scope -/

/-- Sequential statement execution of the emulated engine: run each
statement, stopping at the first failure (db.go lines 318-323). -/
def execStatements (execFails : String → Bool) (s : DbState) :
    List String → DbState × List Event × Option Err
  | [] => (s, [], none)
  | stmt :: rest =>
    if execFails stmt then (s, [.execStmt stmt], some (.execFailed stmt))
    else
      let r := execStatements execFails { s with ops := s.ops ++ [stmt] } rest
      (r.1, .execStmt stmt :: r.2.1, r.2.2)

/-- Embedding of `executeScript` (db.go lines 304-326): print the engine-mode
banner, then either submit the whole script in one call (native) or split it
and execute the statements sequentially, stopping at the first failure. -/
def executeScript (native : Bool) (execFails : String → Bool) (s : DbState)
    (script : String) : DbState × List Event × Option Err :=
  if native then
    if execFails script then (s, [.engineMode true, .execNative script], some (.execFailed script))
    else ({ s with ops := s.ops ++ [script] }, [.engineMode true, .execNative script], none)
  else
    let r := execStatements execFails s (parseStatements script)
    (r.1, .engineMode false :: r.2.1, r.2.2)

/-- Embedding of `doTransaction` (db.go lines 232-247), generic in the state
and error types.  `beginErr`, `rollbackErr` and `commitErr` model the
outcomes of `Begin`, `Rollback` and `Commit` on the backend; `events`
records which of them were invoked, and `bodyRun` whether the body ran. -/
inductive TxEvent where
  | beginTx
  | bodyRun
  | rollbackTx
  | commitTx
  deriving DecidableEq, Repr

/-- Outcome of `doTransaction`: resulting state, returned error, trace. -/
structure TxOut (σ ε : Type) where
  state : σ
  err : Option ε
  events : List TxEvent

/-- Embedding of `doTransaction` (db.go lines 232-247): begin a transaction;
run the body; on body failure attempt rollback, returning the rollback error
instead of the body's error when rollback itself fails; on body success
commit, returning the commit error if any. -/
def doTransaction {σ ε : Type} (s : σ) (beginErr : Option ε)
    (body : σ → σ × Option ε) (rollbackErr commitErr : Option ε) : TxOut σ ε :=
  match beginErr with
  | some e => ⟨s, some e, [.beginTx]⟩
  | none =>
    match body s with
    | (s', r) =>
      match r with
      | some e =>
        match rollbackErr with
        | some e1 => ⟨s, some e1, [.beginTx, .bodyRun, .rollbackTx]⟩
        | none => ⟨s, some e, [.beginTx, .bodyRun, .rollbackTx]⟩
      | none =>
        match commitErr with
        | some e => ⟨s, some e, [.beginTx, .bodyRun, .commitTx]⟩
        | none => ⟨s', none, [.beginTx, .bodyRun, .commitTx]⟩

/-- The engine's transaction scope: `doTransaction` as invoked at db.go
lines 385 and 508, with the backend's Begin/Rollback/Commit succeeding
(the engine model keeps those infallible) and the event log threaded
through so that observable prints survive a rollback. -/
def txScope (s : DbState) (body : DbState → DbState × List Event × Option Err) :
    DbState × List Event × Option Err :=
  match body s with
  | (s', ev, r) =>
    match r with
    | some e => (s, ev, some e)
    | none => (s', ev, none)

/-! ## Engine operations -/

/-- Embedding of `findMigrationFile` (db.go lines 429-447): resolve a version
to the first (lexicographically smallest) file matching `^<ver>.*\.sql$`.
Go panics when `ver` is empty; every call site guards against that, so the
model simply reports the not-found error there. -/
def findMigrationFileM (env : Env) (ver : String) : Except Err String :=
  match findMigrationFilesM env.listing env.readDirOk (verFileMatch ver) with
  | .error _ => .error .dirNotFound
  | .ok [] => .error (.migrationNotFound ver)
  | .ok (f :: _) => .ok f

/-- The per-file loop of `Migrate` (db.go lines 359-394): skip files whose
version is in the applied set loaded up front, otherwise parse the Up script
and run it (plus its bookkeeping insert) under the section's transaction
policy, halting at the first failure. -/
def migrateLoop (useN : Bool) (fileText : String → String) (execFails : String → Bool)
    (appliedSet : List String) :
    List String → DbState → DbState × List Event × Option Err
  | [], s => (s, [], none)
  | f :: rest, s =>
    if appliedSet.contains (migrationVersion f) then
      migrateLoop useN fileText execFails appliedSet rest s
    else
      match parseMigration (fileText f) with
      | .error _ => (s, [.applying f], some .parseFailed)
      | .ok (up, _) =>
        let body := fun st =>
          match executeScript useN execFails st up.contents with
          | (st', ev, some e) => (st', ev, some e)
          | (st', ev, none) =>
            ({ st' with applied := st'.applied ++ [migrationVersion f] },
              ev ++ [.insertVersion (migrationVersion f)], none)
        match (if up.transaction then txScope s body else body s) with
        | (s', ev, some e) => (s', .applying f :: ev, some e)
        | (s', ev, none) =>
          let rr := migrateLoop useN fileText execFails appliedSet rest s'
          (rr.1, .applying f :: ev ++ rr.2.1, rr.2.2)

/-- Embedding of `DumpSchema` (db.go lines 167-195): optional wait, open a
bookkeeping-provisioned connection (closed on every exit path), delegate the
dump to the Driver and write the schema file (the write is modelled as
always succeeding; it never mutates the database state). -/
def DB.DumpSchema (db : DB) (env : Env) (s : DbState) : OpResult :=
  if db.waitBefore && !env.waitOk then ⟨s, [], some .waitFailed⟩
  else
    match openDB env with
    | .error (ev, e) => ⟨s, ev, some e⟩
    | .ok ev0 =>
      if env.dumpOk then ⟨s, ev0 ++ [.closeConn], none⟩
      else ⟨s, ev0 ++ [.closeConn], some .dumpFailed⟩

/-- Embedding of `Migrate` (db.go lines 329-402): list and sort the matching
files (failing when there are none), optionally wait, open one connection
(closed on every exit path), load the full applied-version set, run the
per-file loop, and on full success perform a best-effort schema dump whose
error is swallowed.  Note the dump opens its own nested connection before
the deferred close of the migration connection runs. -/
def DB.Migrate (db : DB) (env : Env) (s : DbState) : OpResult :=
  match findMigrationFilesM env.listing env.readDirOk migrationFileMatch with
  | .error _ => ⟨s, [], some .dirNotFound⟩
  | .ok files =>
    if files.isEmpty then ⟨s, [], some .noMigrationFiles⟩
    else if db.waitBefore && !env.waitOk then ⟨s, [], some .waitFailed⟩
    else
      match openDB env with
      | .error (ev, e) => ⟨s, ev, some e⟩
      | .ok ev0 =>
        match migrateLoop (useNative db) env.fileText env.execFails
            (selectMigrations s.applied (-1)) files s with
        | (s', ev, some e) => ⟨s', ev0 ++ ev ++ [.closeConn], some e⟩
        | (s', ev, none) =>
          let dEv := if db.autoDumpSchema then (DB.DumpSchema db env s').trace else []
          ⟨s', ev0 ++ ev ++ dEv ++ [.closeConn], none⟩

/-- Embedding of `Rollback` (db.go lines 454-524): optional wait, open one
connection (closed on every exit path), load only the latest applied version
(`SelectMigrations(conn, 1)`, iterated like the Go map of length one),
fail with NothingToRollBack when none is applied, otherwise resolve the
version to a file, parse its Down script, execute it and delete the
bookkeeping row under the section's transaction policy, then best-effort
dump. -/
def DB.Rollback (db : DB) (env : Env) (s : DbState) : OpResult :=
  if db.waitBefore && !env.waitOk then ⟨s, [], some .waitFailed⟩
  else
    match openDB env with
    | .error (ev, e) => ⟨s, ev, some e⟩
    | .ok ev0 =>
      let latest := (selectMigrations s.applied 1).foldl (fun _ v => v) ""
      if latest = "" then ⟨s, ev0 ++ [.closeConn], some .nothingToRollBack⟩
      else
        match findMigrationFileM env latest with
        | .error e => ⟨s, ev0 ++ [.closeConn], some e⟩
        | .ok filename =>
          match parseMigration (env.fileText filename) with
          | .error _ => ⟨s, ev0 ++ [.rollingBack filename, .closeConn], some .parseFailed⟩
          | .ok (_, down) =>
            let body := fun st =>
              match executeScript (useNative db) env.execFails st down.contents with
              | (st', ev, some e) => (st', ev, some e)
              | (st', ev, none) =>
                ({ st' with applied := st'.applied.filter (fun v => v ≠ latest) },
                  ev ++ [.deleteVersion latest], none)
            match (if down.transaction then txScope s body else body s) with
            | (s', ev, some e) => ⟨s', ev0 ++ .rollingBack filename :: ev ++ [.closeConn], some e⟩
            | (s', ev, none) =>
              let dEv := if db.autoDumpSchema then (DB.DumpSchema db env s').trace else []
              ⟨s', ev0 ++ .rollingBack filename :: ev ++ dEv ++ [.closeConn], none⟩

/-- Result of `Status`: the returned integer (the Go function's first return
value), the lines printed, the connection trace, and the error. -/
structure StatusOut where
  ret : Int
  output : List String
  trace : List Event
  err : Option Err
  deriving Repr

/-- Embedding of `checkMigrationsStatus` (db.go lines 526-562): list and sort
the matching files (failing when there are none), open a connection (closed
again before returning), load the applied-version set and pair every file
with whether its version is applied. -/
def checkMigrationsStatus (env : Env) (s : DbState) :
    Except (List Event × Err) (List (String × Bool) × List Event) :=
  match findMigrationFilesM env.listing env.readDirOk migrationFileMatch with
  | .error _ => .error ([], .dirNotFound)
  | .ok files =>
    if files.isEmpty then .error ([], .noMigrationFiles)
    else
      match openDB env with
      | .error (ev, e) => .error (ev, e)
      | .ok ev0 =>
        .ok (files.map (fun f => (f, (selectMigrations s.applied (-1)).contains
              (migrationVersion f))), ev0 ++ [.closeConn])

/-- Embedding of `Status` (db.go lines 565-594): compute the per-file
applied/pending results, count the applied ones, print one marked line per
file plus summary counts unless `quiet`, and return the number of pending
migrations (-1 on error). -/
def DB.Status (_db : DB) (env : Env) (s : DbState) (quiet : Bool) : StatusOut :=
  match checkMigrationsStatus env s with
  | .error (ev, e) => ⟨-1, [], ev, some e⟩
  | .ok (results, ev) =>
    let totalApplied : Nat := results.countP (fun r => r.2)
    let totalPending : Int := (results.length : Int) - totalApplied
    let output := if quiet then [] else
      results.map (fun r => (if r.2 then "[X] " else "[ ] ") ++ r.1) ++
        ["", "Applied: " ++ toString totalApplied, "Pending: " ++ toString totalPending]
    ⟨totalPending, output, ev, none⟩

/-! ## Connection wait (db.go lines 72-102)

The probe is indexed by attempt number (`probe k = none` means attempt
`k` succeeds, otherwise it carries the Ping error).  The Go loop
`for i := 0; i < timeout; i += interval` is embedded with an explicit fuel
parameter bounding the number of loop iterations the model may unfold:
`none` means the loop ran longer than the given fuel.  For `interval = 0`
and a never-succeeding probe the loop variable `i` never advances, so the
Go loop never exits — witnessed by `Wait` returning `none` for every fuel. -/

/-- Result of a terminating `Wait` run: success or timeout, with the number
of probe attempts made and (on timeout) the last probe error, which the
returned error message carries. -/
inductive WaitRes where
  | success (attempts : Nat)
  | timedOut (attempts : Nat) (lastErr : String)
  deriving DecidableEq, Repr

/-- The retry loop of `Wait`: `i` is the loop variable, `k` the index of the
next probe attempt, `lastErr` the last probe error seen. -/
def waitGo (probe : Nat → Option String) (interval timeout : Nat) :
    Nat → Nat → Nat → String → Option WaitRes
  | 0, _, _, _ => none
  | fuel + 1, i, k, lastErr =>
    if i < timeout then
      match probe k with
      | none => some (.success (k + 1))
      | some e => waitGo probe interval timeout fuel (i + interval) (k + 1) e
    else some (.timedOut k lastErr)

/-- Embedding of `Wait` (db.go lines 72-102): one initial probe, returning
success immediately when it succeeds, then the sleep-and-retry loop. -/
def Wait (probe : Nat → Option String) (interval timeout fuel : Nat) : Option WaitRes :=
  match probe 0 with
  | none => some (.success 1)
  | some e => waitGo probe interval timeout fuel 0 1 e

/-- `Wait` exceeds every iteration bound, i.e. the Go loop never exits. -/
def waitNeverReturns (probe : Nat → Option String) (interval timeout : Nat) : Prop :=
  ∀ fuel, Wait probe interval timeout fuel = none

/-! ## Derived notions used by the theorems -/

/-- The sorted list of matching migration files of the directory. -/
def matchingFiles (env : Env) : List String :=
  sortStrings (env.listing.filter migrationFileMatch)

/-- The files `Migrate` considers pending: matching files, in sorted order,
whose version is absent from the applied set. -/
def pendingFiles (env : Env) (s : DbState) : List String :=
  (matchingFiles env).filter (fun f => !((s.applied).contains (migrationVersion f)))

/-- Would applying `f` fail (parse error, or its Up script failing under the
configured execution mode)?  This is state-independent, since statement
failure is a function of the statement text. -/
def fileApplyErr (db : DB) (env : Env) (f : String) : Bool :=
  match parseMigration (env.fileText f) with
  | .error _ => true
  | .ok (up, _) =>
    if useNative db then env.execFails up.contents
    else (parseStatements up.contents).any env.execFails

/-- The prefix of a work list an operation attempts when it halts at the
first failing element (the failing element itself is attempted). -/
def haltAt (bad : String → Bool) : List String → List String
  | [] => []
  | f :: rest => if bad f then [f] else f :: haltAt bad rest

/-- The filenames a migrate trace reports as being applied, in order. -/
def applyingOf (tr : List Event) : List String :=
  tr.filterMap (fun e => match e with | .applying f => some f | _ => none)

/-! ## Concrete fixtures -/

/-- A well-formed two-section migration file used by the fixtures. -/
def migText : String := "-- migrate:up\nselect 1;\n-- migrate:down\nselect 2;\n"

/-- Baseline healthy environment: every collaborator call succeeds, every
file reads as `migText`. -/
def envBase : Env :=
  { listing := [], readDirOk := true, fileText := fun _ => migText,
    execFails := fun _ => false, waitOk := true, openOk := true,
    createTableOk := true, dumpOk := true }

/-- Baseline configuration: native engine, no auto dump, no wait. -/
def dbBase : DB :=
  { autoDumpSchema := false, scheme := "postgres", nativeEngine := true, waitBefore := false }

/-- Status fixture: five matching files, two of them applied. -/
def envStatus : Env :=
  { envBase with listing := ["001_a.sql", "002_b.sql", "003_c.sql", "004_d.sql", "005_e.sql"] }

/-- Status fixture state: versions 001 and 002 applied. -/
def sStatus : DbState := ⟨["001", "002"], []⟩

/-- Ordering fixture: two pending files whose filename order disagrees with
the lexicographic order of their versions. -/
def envOrd : Env := { envBase with listing := ["1a.sql", "10.sql"] }

/-- Round-trip fixture: a single pending migration file. -/
def envOne : Env := { envBase with listing := ["20200101000000_one.sql"] }

/-- The empty database state. -/
def s0 : DbState := ⟨[], []⟩

/-- Scripts containing none of the characters the configured scanner treats
specially beyond `';'` (carriage return, double quote, back quote, slash):
on these, tokenisation is observationally plain character copying. -/
def cleanScript (s : String) : Bool :=
  s.data.all (fun c => !(c = '\r' || c = '"' || c = bq || c = '/'))

/-- Oracle configuration with the native-engine flag set. -/
def dbOracle : DB :=
  { autoDumpSchema := false, scheme := "oracle", nativeEngine := true, waitBefore := false }

/-- Baseline configuration with auto schema dump enabled. -/
def dbDump : DB := { dbBase with autoDumpSchema := true }

/-- A probe failing on its first three attempts and succeeding afterwards. -/
def probe3 (n : Nat) : Option String := if n < 3 then some "connection refused" else none

/-! ## Lemmas: lexicographic order and sorting -/

theorem charListLe_refl : ∀ a : List Char, charListLe a a = true
  | [] => rfl
  | c :: cs => by simp [charListLe, lt_irrefl, charListLe_refl cs]

theorem charListLe_trans : ∀ a b c : List Char,
    charListLe a b = true → charListLe b c = true → charListLe a c = true
  | [], _, _, _, _ => rfl
  | _ :: _, [], _, h, _ => by simp [charListLe] at h
  | _ :: _, _ :: _, [], _, h => by simp [charListLe] at h
  | a :: as, b :: bs, c :: cs, h1, h2 => by
    simp only [charListLe] at h1 h2 ⊢
    rcases lt_trichotomy a b with hab | hab | hab
    · rcases lt_trichotomy b c with hbc | hbc | hbc
      · simp [lt_trans hab hbc]
      · subst hbc; simp [hab]
      · simp [asymm hbc, hbc] at h2
    · subst hab
      simp only [lt_irrefl, if_false] at h1
      rcases lt_trichotomy a c with hbc | hbc | hbc
      · simp [hbc]
      · subst hbc
        simp only [lt_irrefl, if_false] at h2 ⊢
        exact charListLe_trans as bs cs h1 h2
      · simp [asymm hbc, hbc] at h2
    · simp [asymm hab, hab] at h1

theorem charListLe_total : ∀ a b : List Char, charListLe a b = true ∨ charListLe b a = true
  | [], _ => Or.inl rfl
  | _ :: _, [] => Or.inr rfl
  | a :: as, b :: bs => by
    simp only [charListLe]
    rcases lt_trichotomy a b with hab | hab | hab
    · left; simp [hab]
    · subst hab
      simp only [lt_irrefl, if_false]
      exact charListLe_total as bs
    · right; simp [hab]

theorem charListLe_antisymm : ∀ a b : List Char,
    charListLe a b = true → charListLe b a = true → a = b
  | [], [], _, _ => rfl
  | [], _ :: _, _, h => by simp [charListLe] at h
  | _ :: _, [], h, _ => by simp [charListLe] at h
  | a :: as, b :: bs, h1, h2 => by
    simp only [charListLe] at h1 h2
    rcases lt_trichotomy a b with hab | hab | hab
    · simp [asymm hab, hab] at h2
    · subst hab
      simp only [lt_irrefl, if_false] at h1 h2
      exact congrArg (a :: ·) (charListLe_antisymm as bs h1 h2)
    · simp [asymm hab, hab] at h1

theorem strLeB_antisymm {a b : String} (h1 : strLeB a b = true) (h2 : strLeB b a = true) :
    a = b := by
  cases a with
  | mk da =>
    cases b with
    | mk db => exact congrArg String.mk (charListLe_antisymm da db h1 h2)

theorem strLeB_total (a b : String) : strLeB a b = true ∨ strLeB b a = true :=
  charListLe_total a.data b.data

theorem strLeB_trans {a b c : String} (h1 : strLeB a b = true) (h2 : strLeB b c = true) :
    strLeB a c = true :=
  charListLe_trans a.data b.data c.data h1 h2

theorem insertStr_perm (a : String) : ∀ l : List String, (insertStr a l).Perm (a :: l)
  | [] => List.Perm.refl _
  | b :: bs => by
    simp only [insertStr]
    split
    · exact List.Perm.refl _
    · exact ((insertStr_perm a bs).cons b).trans (List.Perm.swap a b bs)

theorem sortStrings_perm : ∀ l : List String, (sortStrings l).Perm l
  | [] => List.Perm.refl _
  | a :: as => (insertStr_perm a (sortStrings as)).trans ((sortStrings_perm as).cons a)

theorem insertStr_pairwise (a : String) : ∀ l : List String,
    l.Pairwise (fun x y => strLeB x y = true) →
    (insertStr a l).Pairwise (fun x y => strLeB x y = true)
  | [], _ => by simp [insertStr]
  | b :: bs, h => by
    rcases List.pairwise_cons.mp h with ⟨hb, hbs⟩
    simp only [insertStr]
    split
    · rename_i hab
      refine List.pairwise_cons.mpr ⟨?_, h⟩
      intro x hx
      rcases List.mem_cons.mp hx with rfl | hx
      · exact hab
      · exact strLeB_trans hab (hb x hx)
    · rename_i hab
      have hba : strLeB b a = true := by
        rcases strLeB_total a b with h' | h'
        · exact absurd h' hab
        · exact h'
      refine List.pairwise_cons.mpr ⟨?_, insertStr_pairwise a bs hbs⟩
      intro x hx
      rcases List.mem_cons.mp ((insertStr_perm a bs).mem_iff.mp hx) with rfl | hx
      · exact hba
      · exact hb x hx

theorem sortStrings_pairwise : ∀ l : List String,
    (sortStrings l).Pairwise (fun x y => strLeB x y = true)
  | [] => List.Pairwise.nil
  | a :: as => insertStr_pairwise a (sortStrings as) (sortStrings_pairwise as)

theorem sortStrings_eq_of_perm {l l' : List String} (h : l.Perm l') :
    sortStrings l = sortStrings l' := by
  haveI : IsAntisymm String (fun x y => strLeB x y = true) :=
    ⟨fun _ _ h1 h2 => strLeB_antisymm h1 h2⟩
  exact List.eq_of_perm_of_sorted
    ((sortStrings_perm l).trans (h.trans (sortStrings_perm l').symm))
    (sortStrings_pairwise l) (sortStrings_pairwise l')

/-! ## Lemmas: statement splitter -/

theorem parseStatementsAux_clean : ∀ (cs : List Char) (stmt : String) (acc : List String),
    (∀ c ∈ cs, c ≠ '\r' ∧ c ≠ '"' ∧ c ≠ bq ∧ c ≠ '/') →
    parseStatementsAux cs .normal stmt acc = splitSpecAux cs stmt acc
  | [], stmt, acc, _ => by simp [parseStatementsAux, splitSpecAux, psClose]
  | c :: cs, stmt, acc, h => by
    obtain ⟨h1, h2, h3, h4⟩ := h c (List.mem_cons_self c cs)
    have ih := fun stmt acc =>
      parseStatementsAux_clean cs stmt acc (fun x hx => h x (List.mem_cons_of_mem c hx))
    by_cases hc : c = ';'
    · subst hc
      simp only [parseStatementsAux, splitSpecAux, if_neg h1, if_pos rfl, psClose]
      exact ih _ _
    · simp only [parseStatementsAux, splitSpecAux, if_neg h1, if_neg hc, if_neg h4,
        if_neg h2, if_neg h3]
      exact ih _ _

theorem cleanScript_chars {script : String} (h : cleanScript script = true) :
    ∀ c ∈ script.data, c ≠ '\r' ∧ c ≠ '"' ∧ c ≠ bq ∧ c ≠ '/' := by
  intro c hc
  have := List.all_eq_true.mp h c hc
  simp only [Bool.not_eq_true', Bool.or_eq_false_iff, decide_eq_false_iff_not] at this
  exact ⟨this.1.1.1, this.1.1.2, this.1.2, this.2⟩

/-- C3 (counterexample): the claim reads the splitter as copying every
character verbatim except a splitting `';'` — that is exactly `splitSpec`.
The code's splitter disagrees with it on the concrete input "a\rb": the
scanner configuration keeps `'\r'` as whitespace, so the carriage return is
skipped rather than copied, yielding the statement "ab" instead of "a\rb". -/
theorem parseStatements_cr_counterexample :
    parseStatements "a\rb" = ["ab"] ∧ splitSpec "a\rb" = ["a\rb"] ∧
      parseStatements "a\rb" ≠ splitSpec "a\rb" :=
  ⟨by decide, by decide, by decide⟩

/-- C3 (amended): for scripts containing none of the characters the
configured scanner treats specially (carriage return, double quote, back
quote, slash), the splitter behaves exactly as the claim states: every
character is copied verbatim except a literal `';'`, which closes the
current accumulator as one statement if it is non-empty after trimming
surrounding whitespace, empty accumulators are discarded, and end of input
closes the final accumulator under the same rule (`splitSpec` is that rule,
word for word). -/
theorem parseStatements_eq_splitSpec (script : String) (h : cleanScript script = true) :
    parseStatements script = splitSpec script :=
  parseStatementsAux_clean script.data "" [] (cleanScript_chars h)

/-- C3 (witness): the claim's own example input splits into exactly the two
statements "select 1" and " select 2", the trailing empty fragments being
dropped. -/
theorem parseStatements_eq_splitSpec_witness :
    parseStatements "select 1; select 2;;  " = splitSpec "select 1; select 2;;  " ∧
      parseStatements "select 1; select 2;;  " = ["select 1", " select 2"] :=
  ⟨parseStatements_eq_splitSpec "select 1; select 2;;  " (by decide), by decide⟩

/-! ## Lemmas: script execution -/

theorem execStatements_applied (f : String → Bool) :
    ∀ (l : List String) (s : DbState), (execStatements f s l).1.applied = s.applied
  | [], _ => rfl
  | stmt :: rest, s => by
    simp only [execStatements]
    split
    · rfl
    · simpa using execStatements_applied f rest { s with ops := s.ops ++ [stmt] }

theorem execStatements_err (f : String → Bool) :
    ∀ (l : List String) (s : DbState), ((execStatements f s l).2.2 = none) ↔ l.any f = false
  | [], s => by simp [execStatements]
  | stmt :: rest, s => by
    simp only [execStatements, List.any_cons]
    by_cases hf : f stmt
    · simp [hf]
    · simpa [hf] using execStatements_err f rest { s with ops := s.ops ++ [stmt] }

theorem execStatements_trace (f : String → Bool) :
    ∀ (l : List String) (s : DbState),
      (execStatements f s l).2.1 = (haltAt f l).map Event.execStmt
  | [], s => by simp [execStatements, haltAt]
  | stmt :: rest, s => by
    simp only [execStatements, haltAt]
    by_cases hf : f stmt
    · simp [hf]
    · simp [hf, execStatements_trace f rest { s with ops := s.ops ++ [stmt] }]

theorem executeScript_applied (n : Bool) (f : String → Bool) (s : DbState) (script : String) :
    (executeScript n f s script).1.applied = s.applied := by
  unfold executeScript
  split
  · split <;> rfl
  · simp [execStatements_applied]

theorem executeScript_err (n : Bool) (f : String → Bool) (s : DbState) (script : String) :
    ((executeScript n f s script).2.2 = none) ↔
      (if n then f script else (parseStatements script).any f) = false := by
  unfold executeScript
  split
  · rename_i hn
    by_cases hf : f script <;> simp [hn, hf]
  · rename_i hn
    simp only [Bool.not_eq_true] at hn
    simp [hn, execStatements_err]

theorem executeScript_trace (n : Bool) (f : String → Bool) (s : DbState) (script : String) :
    (executeScript n f s script).2.1 =
      if n then [Event.engineMode true, Event.execNative script]
      else Event.engineMode false :: (haltAt f (parseStatements script)).map Event.execStmt := by
  unfold executeScript
  split
  · rename_i hn
    split <;> simp [hn]
  · rename_i hn
    simp only [Bool.not_eq_true] at hn
    simp [hn, execStatements_trace]


theorem applyingOf_cons (e : Event) (tr : List Event) :
    applyingOf (e :: tr) =
      (match e with | .applying f => [f] | _ => []) ++ applyingOf tr := by
  cases e <;> simp [applyingOf, List.filterMap_cons]

theorem applyingOf_append (tr tr' : List Event) :
    applyingOf (tr ++ tr') = applyingOf tr ++ applyingOf tr' := by
  simp [applyingOf, List.filterMap_append]

theorem applyingOf_map_execStmt (l : List String) : applyingOf (l.map Event.execStmt) = [] := by
  induction l with
  | nil => rfl
  | cons a l ih => simp [applyingOf, List.filterMap_cons, ih]

theorem executeScript_no_applying (n : Bool) (f : String → Bool) (s : DbState) (script : String) :
    applyingOf (executeScript n f s script).2.1 = [] := by
  rw [executeScript_trace]
  split
  · rfl
  · rw [applyingOf_cons, applyingOf_map_execStmt]
    rfl

theorem count_conn_map_execStmt (e : Event) (l : List String)
    (h : ∀ st, e ≠ Event.execStmt st) : (l.map Event.execStmt).count e = 0 := by
  rw [List.count_eq_zero]
  intro hmem
  rcases List.mem_map.mp hmem with ⟨x, _, hx⟩
  exact h x hx.symm

theorem executeScript_count_open (n : Bool) (f : String → Bool) (s : DbState) (script : String) :
    (executeScript n f s script).2.1.count Event.openConn = 0 := by
  rw [executeScript_trace]
  split
  · rfl
  · rw [List.count_cons, count_conn_map_execStmt Event.openConn _ (by intro st h; cases h)]
    rfl

theorem executeScript_count_close (n : Bool) (f : String → Bool) (s : DbState) (script : String) :
    (executeScript n f s script).2.1.count Event.closeConn = 0 := by
  rw [executeScript_trace]
  split
  · rfl
  · rw [List.count_cons, count_conn_map_execStmt Event.closeConn _ (by intro st h; cases h)]
    rfl

theorem executeScript_engineMode (n : Bool) (f : String → Bool) (s : DbState) (script : String) :
    ∀ b, Event.engineMode b ∈ (executeScript n f s script).2.1 → b = n := by
  intro b hb
  rw [executeScript_trace] at hb
  revert hb
  split
  · rename_i hn
    intro hb
    rcases List.mem_cons.mp hb with h | h
    · cases h; exact hn.symm
    · rcases List.mem_cons.mp h with h | h
      · exact absurd h (by simp)
      · exact absurd h (by simp)
  · rename_i hn
    intro hb
    rcases List.mem_cons.mp hb with h | h
    · cases h
      simp only [Bool.not_eq_true] at hn
      exact hn.symm
    · rcases List.mem_map.mp h with ⟨x, _, hx⟩
      exact absurd hx (by simp)

/-! ## Lemmas: the Migrate loop -/

theorem migrateLoop_spec (db : DB) (env : Env) (aps : List String) (files : List String) :
    ∀ s : DbState,
      applyingOf (migrateLoop (useNative db) env.fileText env.execFails aps files s).2.1 =
          haltAt (fileApplyErr db env)
            (files.filter (fun g => !(aps.contains (migrationVersion g)))) ∧
        (migrateLoop (useNative db) env.fileText env.execFails aps files s).1.applied =
          s.applied ++
            ((files.filter (fun g => !(aps.contains (migrationVersion g)))).takeWhile
              (fun g => !(fileApplyErr db env g))).map migrationVersion ∧
        ((migrateLoop (useNative db) env.fileText env.execFails aps files s).2.2 = none ↔
          (files.filter (fun g => !(aps.contains (migrationVersion g)))).all
            (fun g => !(fileApplyErr db env g)) = true) ∧
        (migrateLoop (useNative db) env.fileText env.execFails aps files s).2.1.count
            Event.openConn = 0 ∧
        (migrateLoop (useNative db) env.fileText env.execFails aps files s).2.1.count
            Event.closeConn = 0 ∧
        (∀ b, Event.engineMode b ∈
            (migrateLoop (useNative db) env.fileText env.execFails aps files s).2.1 →
          b = useNative db) := by
  induction files with
  | nil =>
    intro s
    simp [migrateLoop, applyingOf, haltAt]
  | cons f rest ih =>
    intro s
    by_cases hA : aps.contains (migrationVersion f) = true
    · have hAm : migrationVersion f ∈ aps := by simpa using hA
      have hstep : migrateLoop (useNative db) env.fileText env.execFails aps (f :: rest) s =
          migrateLoop (useNative db) env.fileText env.execFails aps rest s := by
        simp [migrateLoop, hAm]
      have hfil : (f :: rest).filter (fun g => !(aps.contains (migrationVersion g))) =
          rest.filter (fun g => !(aps.contains (migrationVersion g))) := by
        simp [hAm]
      rw [hstep, hfil]
      exact ih s
    · have hA' : aps.contains (migrationVersion f) = false := by
        simpa using hA
      have hA2 : migrationVersion f ∉ aps := by
        simpa using hA'
      have hfil : (f :: rest).filter (fun g => !(aps.contains (migrationVersion g))) =
          f :: rest.filter (fun g => !(aps.contains (migrationVersion g))) := by
        simp [hA2]
      cases hp : parseMigration (env.fileText f) with
      | error e =>
        have hbad : fileApplyErr db env f = true := by
          simp [fileApplyErr, hp]
        have hstep : migrateLoop (useNative db) env.fileText env.execFails aps (f :: rest) s =
            (s, [.applying f], some .parseFailed) := by
          simp [migrateLoop, hA2, hp]
        rw [hstep, hfil]
        refine ⟨?_, ?_, ?_, ?_, ?_, ?_⟩
        · simp [applyingOf, haltAt, hbad]
        · simp [List.takeWhile_cons, hbad]
        · simp [hbad]
        · simp
        · simp
        · intro b hb
          simp at hb
      | ok pair =>
        obtain ⟨up, down⟩ := pair
        rcases hex : executeScript (useNative db) env.execFails s up.contents with ⟨st', ev, r'⟩
        have happ : st'.applied = s.applied := by
          have h := executeScript_applied (useNative db) env.execFails s up.contents
          rw [hex] at h; exact h
        have hnoap : applyingOf ev = [] := by
          have h := executeScript_no_applying (useNative db) env.execFails s up.contents
          rw [hex] at h; exact h
        have hco : ev.count Event.openConn = 0 := by
          have h := executeScript_count_open (useNative db) env.execFails s up.contents
          rw [hex] at h; exact h
        have hcc : ev.count Event.closeConn = 0 := by
          have h := executeScript_count_close (useNative db) env.execFails s up.contents
          rw [hex] at h; exact h
        have hem : ∀ b, Event.engineMode b ∈ ev → b = useNative db := by
          intro b hb
          have h := executeScript_engineMode (useNative db) env.execFails s up.contents b
          rw [hex] at h; exact h hb
        have herr := executeScript_err (useNative db) env.execFails s up.contents
        rw [hex] at herr
        cases r' with
        | some e =>
          have hbad : fileApplyErr db env f = true := by
            simp only [fileApplyErr, hp]
            rcases hb : (if useNative db then env.execFails up.contents
                else (parseStatements up.contents).any env.execFails) with _ | _
            · exact absurd (herr.mpr hb) (by simp)
            · rfl
          have hstep : migrateLoop (useNative db) env.fileText env.execFails aps (f :: rest) s =
              ((if up.transaction then s else st'), .applying f :: ev, some e) := by
            by_cases hT : up.transaction = true
            · simp [migrateLoop, hA2, hp, hT, txScope, hex]
            · have hT' : up.transaction = false := by simpa using hT
              simp [migrateLoop, hA2, hp, hT', hex]
          rw [hstep, hfil]
          refine ⟨?_, ?_, ?_, ?_, ?_, ?_⟩
          · simp [applyingOf_cons, hnoap, haltAt, hbad]
          · have : (if up.transaction then s else st').applied = s.applied := by
              split <;> simp [happ]
            simp [this, List.takeWhile_cons, hbad]
          · simp [hbad]
          · simp [List.count_cons, hco]
          · simp [List.count_cons, hcc]
          · intro b hb
            rcases List.mem_cons.mp hb with h | h
            · exact absurd h (by simp)
            · exact hem b h
        | none =>
          have hgood : fileApplyErr db env f = false := by
            simp only [fileApplyErr, hp]
            exact herr.mp rfl
          have ihs := ih { st' with applied := st'.applied ++ [migrationVersion f] }
          obtain ⟨ih1, ih2, ih3, ih4, ih5, ih6⟩ := ihs
          have hstep : migrateLoop (useNative db) env.fileText env.execFails aps (f :: rest) s =
              ((migrateLoop (useNative db) env.fileText env.execFails aps rest
                  { st' with applied := st'.applied ++ [migrationVersion f] }).1,
                .applying f :: ((ev ++ [.insertVersion (migrationVersion f)]) ++
                  (migrateLoop (useNative db) env.fileText env.execFails aps rest
                    { st' with applied := st'.applied ++ [migrationVersion f] }).2.1),
                (migrateLoop (useNative db) env.fileText env.execFails aps rest
                  { st' with applied := st'.applied ++ [migrationVersion f] }).2.2) := by
            by_cases hT : up.transaction = true
            · simp [migrateLoop, hA2, hp, hT, txScope, hex]
            · have hT' : up.transaction = false := by simpa using hT
              simp [migrateLoop, hA2, hp, hT', hex]
          rw [hstep, hfil]
          refine ⟨?_, ?_, ?_, ?_, ?_, ?_⟩
          · rw [applyingOf_cons, applyingOf_append, applyingOf_append, hnoap, ih1]
            simp [applyingOf, haltAt, hgood]
          · rw [ih2]
            simp [happ, List.takeWhile_cons, hgood]
          · rw [ih3]
            simp [hgood]
          · simp [List.count_cons, List.count_append, hco, ih4]
          · simp [List.count_cons, List.count_append, hcc, ih5]
          · intro b hb
            rcases List.mem_cons.mp hb with h | h
            · exact absurd h (by simp)
            · rcases List.mem_append.mp h with h | h
              · rcases List.mem_append.mp h with h | h
                · exact hem b h
                · exact absurd h (by simp)
              · exact ih6 b h

/-! ## Lemmas: operation-level facts -/

theorem executeScript_events (n : Bool) (f : String → Bool) (s : DbState) (script : String) :
    ∀ e ∈ (executeScript n f s script).2.1,
      e = Event.engineMode n ∨ e = Event.execNative script ∨ ∃ st, e = Event.execStmt st := by
  intro e he
  rw [executeScript_trace] at he
  revert he
  split
  · rename_i hn
    intro he
    rcases List.mem_cons.mp he with h | h
    · exact Or.inl (by rw [h, hn])
    · rcases List.mem_cons.mp h with h | h
      · exact Or.inr (Or.inl h)
      · exact absurd h (by simp)
  · rename_i hn
    intro he
    rcases List.mem_cons.mp he with h | h
    · rw [h]
      exact Or.inl (by simp [Bool.not_eq_true] at hn; rw [hn])
    · rcases List.mem_map.mp h with ⟨x, _, hx⟩
      exact Or.inr (Or.inr ⟨x, hx.symm⟩)

theorem DumpSchema_trace_cases (db : DB) (env : Env) (s : DbState) :
    (db.DumpSchema env s).trace = [] ∨
      (db.DumpSchema env s).trace = [Event.openConn, Event.closeConn] := by
  cases hwb : (db.waitBefore && !env.waitOk) <;> cases ho : env.openOk <;>
    cases ht : env.createTableOk <;> cases hd : env.dumpOk <;>
      simp [DB.DumpSchema, openDB, hwb, ho, ht, hd]

theorem DumpSchema_state (db : DB) (env : Env) (s : DbState) :
    (db.DumpSchema env s).state = s := by
  cases hwb : (db.waitBefore && !env.waitOk) <;> cases ho : env.openOk <;>
    cases ht : env.createTableOk <;> cases hd : env.dumpOk <;>
      simp [DB.DumpSchema, openDB, hwb, ho, ht, hd]

theorem Migrate_spec (db : DB) (env : Env) (s : DbState) (hrd : env.readDirOk = true)
    (hopen : env.openOk = true) (htab : env.createTableOk = true)
    (hw : db.waitBefore = false) :
    applyingOf (db.Migrate env s).trace =
        haltAt (fileApplyErr db env) (pendingFiles env s) ∧
      (db.Migrate env s).state.applied =
        s.applied ++ ((pendingFiles env s).takeWhile
          (fun g => !(fileApplyErr db env g))).map migrationVersion ∧
      ((db.Migrate env s).err = none ↔
        (matchingFiles env ≠ [] ∧ (pendingFiles env s).all
          (fun g => !(fileApplyErr db env g)) = true)) ∧
      (∀ b, Event.engineMode b ∈ (db.Migrate env s).trace → b = useNative db) := by
  have hfind : findMigrationFilesM env.listing env.readDirOk migrationFileMatch =
      .ok (matchingFiles env) := by
    rw [hrd]; rfl
  have hopenDB : openDB env = .ok [Event.openConn] := by
    simp [openDB, hopen, htab]
  have hsel : selectMigrations s.applied (-1) = s.applied := rfl
  by_cases hM : matchingFiles env = []
  · have hpend : pendingFiles env s = [] := by simp [pendingFiles, hM]
    have hstep : db.Migrate env s = ⟨s, [], some .noMigrationFiles⟩ := by
      simp [DB.Migrate, hfind, hM]
    rw [hstep, hpend]
    exact ⟨by simp [applyingOf, haltAt], by simp, by simp [hM], by intro b hb; simp at hb⟩
  · have hMe : (matchingFiles env).isEmpty = false := by
      simpa [List.isEmpty_iff] using hM
    have hML := migrateLoop_spec db env s.applied (matchingFiles env) s
    rcases hL : migrateLoop (useNative db) env.fileText env.execFails s.applied
        (matchingFiles env) s with ⟨s', ev, r'⟩
    rw [hL] at hML
    obtain ⟨h1, h2, h3, _, _, h6⟩ := hML
    cases r' with
    | some e =>
      have hstep : db.Migrate env s =
          ⟨s', Event.openConn :: (ev ++ [Event.closeConn]), some e⟩ := by
        simp [DB.Migrate, hfind, hMe, hw, hopenDB, hsel, hL]
      rw [hstep]
      refine ⟨?_, by simpa [pendingFiles] using h2, ?_, ?_⟩
      · show applyingOf (Event.openConn :: (ev ++ [Event.closeConn])) = _
        rw [applyingOf_cons, applyingOf_append]
        simpa [applyingOf, pendingFiles] using h1
      · constructor
        · intro hc; exact absurd hc (by simp)
        · rintro ⟨_, hall⟩
          exact absurd (h3.mpr (by simpa [pendingFiles] using hall)) (by simp)
      · intro b hb
        rcases List.mem_cons.mp hb with h | h
        · exact absurd h (by simp)
        · rcases List.mem_append.mp h with h | h
          · exact h6 b h
          · exact absurd h (by simp)
    | none =>
      have hdEv : applyingOf (if db.autoDumpSchema then (db.DumpSchema env s').trace
          else []) = [] := by
        split
        · rcases DumpSchema_trace_cases db env s' with h | h <;> simp [h, applyingOf]
        · simp [applyingOf]
      have hdem : ∀ b, Event.engineMode b ∉ (if db.autoDumpSchema then
          (db.DumpSchema env s').trace else []) := by
        intro b hb
        revert hb
        split
        · rcases DumpSchema_trace_cases db env s' with h | h <;> rw [h] <;> simp
        · simp
      have hstep : db.Migrate env s =
          ⟨s', Event.openConn :: (ev ++ ((if db.autoDumpSchema then
              (db.DumpSchema env s').trace else []) ++ [Event.closeConn])), none⟩ := by
        simp [DB.Migrate, hfind, hMe, hw, hopenDB, hsel, hL]
      rw [hstep]
      refine ⟨?_, by simpa [pendingFiles] using h2, ?_, ?_⟩
      · show applyingOf (Event.openConn :: (ev ++ ((if db.autoDumpSchema then
            (db.DumpSchema env s').trace else []) ++ [Event.closeConn]))) = _
        rw [applyingOf_cons, applyingOf_append, applyingOf_append, hdEv]
        simpa [applyingOf, pendingFiles] using h1
      · constructor
        · intro _
          exact ⟨hM, by simpa [pendingFiles] using h3.mp rfl⟩
        · intro _
          rfl
      · intro b hb
        rcases List.mem_cons.mp hb with h | h
        · exact absurd h (by simp)
        · rcases List.mem_append.mp h with h | h
          · exact h6 b h
          · rcases List.mem_append.mp h with h | h
            · exact absurd h (hdem b)
            · exact absurd h (by simp)

theorem DumpSchema_counts (db : DB) (env : Env) (s : DbState) :
    (db.DumpSchema env s).trace.count Event.openConn =
        (db.DumpSchema env s).trace.count Event.closeConn ∧
      (db.DumpSchema env s).trace.count Event.openConn ≤ 1 := by
  rcases DumpSchema_trace_cases db env s with h | h <;> rw [h] <;> exact ⟨by decide, by decide⟩

theorem Migrate_counts (db : DB) (env : Env) (s : DbState) :
    (db.Migrate env s).trace.count Event.openConn =
        (db.Migrate env s).trace.count Event.closeConn ∧
      (db.autoDumpSchema = false → (db.Migrate env s).trace.count Event.openConn ≤ 1) := by
  cases hrd : env.readDirOk with
  | false =>
    have hstep : db.Migrate env s = ⟨s, [], some .dirNotFound⟩ := by
      simp [DB.Migrate, findMigrationFilesM, hrd]
    rw [hstep]
    exact ⟨by simp, fun _ => by simp⟩
  | true =>
    have hfind : findMigrationFilesM env.listing env.readDirOk migrationFileMatch =
        .ok (matchingFiles env) := by rw [hrd]; rfl
    by_cases hM : (matchingFiles env).isEmpty = true
    · have hstep : db.Migrate env s = ⟨s, [], some .noMigrationFiles⟩ := by
        simp [DB.Migrate, hfind, hM]
      rw [hstep]
      exact ⟨by simp, fun _ => by simp⟩
    · have hMe : (matchingFiles env).isEmpty = false := by simpa using hM
      by_cases hwb : (db.waitBefore && !env.waitOk) = true
      · have hstep : db.Migrate env s = ⟨s, [], some .waitFailed⟩ := by
          simp [DB.Migrate, hfind, hMe, hwb]
        rw [hstep]
        exact ⟨by simp, fun _ => by simp⟩
      · have hwb' : (db.waitBefore && !env.waitOk) = false := by simpa using hwb
        cases ho : env.openOk with
        | false =>
          have hstep : db.Migrate env s = ⟨s, [], some .openFailed⟩ := by
            simp [DB.Migrate, hfind, hMe, hwb', openDB, ho]
          rw [hstep]
          exact ⟨by simp, fun _ => by simp⟩
        | true =>
          cases ht : env.createTableOk with
          | false =>
            have hstep : db.Migrate env s =
                ⟨s, [Event.openConn, Event.closeConn], some .tableFailed⟩ := by
              simp [DB.Migrate, hfind, hMe, hwb', openDB, ho, ht]
            rw [hstep]
            exact ⟨by simp, fun _ => by simp⟩
          | true =>
            have hopenDB : openDB env = .ok [Event.openConn] := by simp [openDB, ho, ht]
            have hsel : selectMigrations s.applied (-1) = s.applied := rfl
            have hML := migrateLoop_spec db env s.applied (matchingFiles env) s
            rcases hL : migrateLoop (useNative db) env.fileText env.execFails s.applied
                (matchingFiles env) s with ⟨s', ev, r'⟩
            rw [hL] at hML
            obtain ⟨_, _, _, h4, h5, _⟩ := hML
            cases r' with
            | some e =>
              have hstep : db.Migrate env s =
                  ⟨s', Event.openConn :: (ev ++ [Event.closeConn]), some e⟩ := by
                simp [DB.Migrate, hfind, hMe, hwb', hopenDB, hsel, hL]
              rw [hstep]
              constructor
              · simp [List.count_cons, List.count_append, h4, h5]
              · intro _
                simp [List.count_cons, List.count_append, h4]
            | none =>
              obtain ⟨hd1, hd2⟩ := DumpSchema_counts db env s'
              have hstep : db.Migrate env s =
                  ⟨s', Event.openConn :: (ev ++ ((if db.autoDumpSchema then
                      (db.DumpSchema env s').trace else []) ++ [Event.closeConn])),
                    none⟩ := by
                simp [DB.Migrate, hfind, hMe, hwb', hopenDB, hsel, hL]
              rw [hstep]
              constructor
              · by_cases had : db.autoDumpSchema = true
                · simp [had, List.count_cons, List.count_append, h4, h5, hd1]
                · have had' : db.autoDumpSchema = false := by simpa using had
                  simp [had', List.count_cons, List.count_append, h4, h5]
              · intro had
                simp [had, List.count_cons, List.count_append, h4]

theorem Rollback_spec (db : DB) (env : Env) (s : DbState) (hopen : env.openOk = true)
    (htab : env.createTableOk = true) (hw : db.waitBefore = false) :
    (s.applied = [] → db.Rollback env s =
        ⟨s, [Event.openConn, Event.closeConn], some .nothingToRollBack⟩) ∧
      (∀ v, Event.deleteVersion v ∈ (db.Rollback env s).trace →
        s.applied.getLast? = some v) ∧
      (∀ f, Event.rollingBack f ∈ (db.Rollback env s).trace →
        findMigrationFileM env ((selectMigrations s.applied 1).foldl (fun _ v => v) "") =
          .ok f) ∧
      ((db.Rollback env s).err = none → ∃ v, s.applied.getLast? = some v ∧
        (db.Rollback env s).state.applied = s.applied.filter (fun x => x ≠ v)) ∧
      (∀ b, Event.engineMode b ∈ (db.Rollback env s).trace → b = useNative db) := by
  have hwb : (db.waitBefore && !env.waitOk) = false := by rw [hw]; rfl
  have hopenDB : openDB env = .ok [Event.openConn] := by simp [openDB, hopen, htab]
  have hlat : (selectMigrations s.applied 1).foldl (fun _ v => v) "" =
      (match s.applied.getLast? with | some v => v | none => "") := by
    simp only [selectMigrations, if_pos rfl]
    cases s.applied.getLast? <;> rfl
  cases hg : s.applied.getLast? with
  | none =>
    have hemp : s.applied = [] := by
      cases ha : s.applied with
      | nil => rfl
      | cons a l => rw [ha] at hg; simp [List.getLast?_concat] at hg
    have hlat' : (selectMigrations s.applied 1).foldl (fun _ v => v) "" = "" := by
      rw [hlat, hg]
    have hstep : db.Rollback env s =
        ⟨s, [Event.openConn, Event.closeConn], some .nothingToRollBack⟩ := by
      simp [DB.Rollback, hwb, hopenDB, hlat']
    rw [hstep]
    refine ⟨fun _ => rfl, ?_, ?_, ?_, ?_⟩
    · intro v hv
      simp at hv
    · intro f hf
      simp at hf
    · intro h
      simp at h
    · intro b hb
      simp at hb
  | some v =>
    have hlat' : (selectMigrations s.applied 1).foldl (fun _ v => v) "" = v := by
      rw [hlat, hg]
    have hne : s.applied ≠ [] := by
      intro habs
      rw [habs] at hg
      simp at hg
    by_cases hv : v = ""
    · have hstep : db.Rollback env s =
          ⟨s, [Event.openConn, Event.closeConn], some .nothingToRollBack⟩ := by
        simp [DB.Rollback, hwb, hopenDB, hlat', hv]
      rw [hstep]
      refine ⟨fun habs => absurd habs hne, ?_, ?_, ?_, ?_⟩
      · intro v' hv'
        simp at hv'
      · intro f hf
        simp at hf
      · intro h
        simp at h
      · intro b hb
        simp at hb
    · cases hf : findMigrationFileM env v with
      | error e =>
        have hstep : db.Rollback env s =
            ⟨s, [Event.openConn, Event.closeConn], some e⟩ := by
          simp [DB.Rollback, hwb, hopenDB, hlat', hv, hf]
        rw [hstep]
        refine ⟨fun habs => absurd habs hne, ?_, ?_, ?_, ?_⟩
        · intro v' hv'
          simp at hv'
        · intro f' hf'
          simp at hf'
        · intro h
          simp at h
        · intro b hb
          simp at hb
      | ok filename =>
        cases hp : parseMigration (env.fileText filename) with
        | error e =>
          have hstep : db.Rollback env s =
              ⟨s, [Event.openConn, Event.rollingBack filename, Event.closeConn],
                some .parseFailed⟩ := by
            simp [DB.Rollback, hwb, hopenDB, hlat', hv, hf, hp]
          rw [hstep]
          refine ⟨fun habs => absurd habs hne, ?_, ?_, ?_, ?_⟩
          · intro v' hv'
            simp at hv'
          · intro f' hf'
            simp at hf'
            rw [hf', hlat', hf]
          · intro h
            simp at h
          · intro b hb
            simp at hb
        | ok pair =>
          obtain ⟨up, down⟩ := pair
          rcases hex : executeScript (useNative db) env.execFails s down.contents
            with ⟨st', ev, r'⟩
          have happ : st'.applied = s.applied := by
            have h := executeScript_applied (useNative db) env.execFails s down.contents
            rw [hex] at h; exact h
          have hevs := executeScript_events (useNative db) env.execFails s down.contents
          rw [hex] at hevs
          have hem : ∀ b, Event.engineMode b ∈ ev → b = useNative db := by
            intro b hb
            have h := executeScript_engineMode (useNative db) env.execFails s down.contents b
            rw [hex] at h; exact h hb
          cases r' with
          | some e =>
            have hstep : db.Rollback env s =
                ⟨(if down.transaction then s else st'),
                  Event.openConn :: Event.rollingBack filename :: (ev ++ [Event.closeConn]),
                  some e⟩ := by
              by_cases hT : down.transaction = true
              · simp [DB.Rollback, hwb, hopenDB, hlat', hv, hf, hp, hT, txScope, hex]
              · have hT' : down.transaction = false := by simpa using hT
                simp [DB.Rollback, hwb, hopenDB, hlat', hv, hf, hp, hT', hex]
            rw [hstep]
            refine ⟨fun habs => absurd habs hne, ?_, ?_, ?_, ?_⟩
            · intro v' hv'
              simp only [List.mem_cons, List.mem_append] at hv'
              rcases hv' with h | h | h | h
              · exact absurd h (by simp)
              · exact absurd h (by simp)
              · rcases hevs _ h with h' | h' | ⟨st, h'⟩ <;> simp at h'
              · exact absurd h (by simp)
            · intro f' hf'
              simp only [List.mem_cons, List.mem_append] at hf'
              rcases hf' with h | h | h | h
              · exact absurd h (by simp)
              · cases h
                rw [hlat', hf]
              · rcases hevs _ h with h' | h' | ⟨st, h'⟩ <;> simp at h'
              · exact absurd h (by simp)
            · intro h
              simp at h
            · intro b hb
              simp only [List.mem_cons, List.mem_append] at hb
              rcases hb with h | h | h | h
              · exact absurd h (by simp)
              · exact absurd h (by simp)
              · exact hem b h
              · exact absurd h (by simp)
          | none =>
            have hdev : ∀ e ∈ (if db.autoDumpSchema then (db.DumpSchema env (⟨st'.applied.filter (fun x => x ≠ v), st'.ops⟩ : DbState)).trace else []), e = Event.openConn ∨ e = Event.closeConn := by
              split
              · rcases DumpSchema_trace_cases db env (⟨st'.applied.filter (fun x => x ≠ v), st'.ops⟩ : DbState) with h | h <;> rw [h]
                · intro e he
                  simp at he
                · intro e he
                  rcases List.mem_cons.mp he with h' | h'
                  · exact Or.inl h'
                  · rcases List.mem_cons.mp h' with h'' | h''
                    · exact Or.inr h''
                    · exact absurd h'' (by simp)
              · intro e he
                simp at he
            have hstep : db.Rollback env s = ⟨(⟨st'.applied.filter (fun x => x ≠ v), st'.ops⟩ : DbState), Event.openConn :: Event.rollingBack filename :: ((ev ++ [Event.deleteVersion v]) ++ ((if db.autoDumpSchema then (db.DumpSchema env (⟨st'.applied.filter (fun x => x ≠ v), st'.ops⟩ : DbState)).trace else []) ++ [Event.closeConn])), none⟩ := by
              by_cases hT : down.transaction = true
              · simp [DB.Rollback, hwb, hopenDB, hlat', hv, hf, hp, hT, txScope, hex]
              · have hT' : down.transaction = false := by simpa using hT
                simp [DB.Rollback, hwb, hopenDB, hlat', hv, hf, hp, hT', hex]
            rw [hstep]
            refine ⟨fun habs => absurd habs hne, ?_, ?_, ?_, ?_⟩
            · intro v' hv'
              simp only [List.mem_cons, List.mem_append] at hv'
              rcases hv' with h | h | (h | h | h) | h | h | h
              · exact absurd h (by simp)
              · exact absurd h (by simp)
              · rcases hevs _ h with h' | h' | ⟨st, h'⟩ <;> simp at h'
              · cases h
                first
                | exact hg
                | rfl
              · simp at h
              · rcases hdev _ h with h' | h' <;> simp at h'
              · simp at h
              · simp at h
            · intro f' hf'
              simp only [List.mem_cons, List.mem_append] at hf'
              rcases hf' with h | h | (h | h | h) | h | h | h
              · exact absurd h (by simp)
              · cases h
                rw [hlat', hf]
              · rcases hevs _ h with h' | h' | ⟨st, h'⟩ <;> simp at h'
              · simp at h
              · simp at h
              · rcases hdev _ h with h' | h' <;> simp at h'
              · simp at h
              · simp at h
            · intro _
              exact ⟨v, by first | exact hg | rfl, by simp [happ]⟩
            · intro b hb
              simp only [List.mem_cons, List.mem_append] at hb
              rcases hb with h | h | (h | h | h) | h | h | h
              · exact absurd h (by simp)
              · exact absurd h (by simp)
              · exact hem b h
              · simp at h
              · simp at h
              · rcases hdev _ h with h' | h' <;> simp at h'
              · simp at h
              · simp at h

theorem Rollback_counts (db : DB) (env : Env) (s : DbState) :
    (db.Rollback env s).trace.count Event.openConn =
        (db.Rollback env s).trace.count Event.closeConn ∧
      (db.autoDumpSchema = false → (db.Rollback env s).trace.count Event.openConn ≤ 1) := by
  by_cases hwb : (db.waitBefore && !env.waitOk) = true
  · have hstep : db.Rollback env s = ⟨s, [], some .waitFailed⟩ := by
      simp [DB.Rollback, hwb]
    rw [hstep]
    exact ⟨by simp, fun _ => by simp⟩
  · have hwb' : (db.waitBefore && !env.waitOk) = false := by simpa using hwb
    cases ho : env.openOk with
    | false =>
      have hstep : db.Rollback env s = ⟨s, [], some .openFailed⟩ := by
        simp [DB.Rollback, hwb', openDB, ho]
      rw [hstep]
      exact ⟨by simp, fun _ => by simp⟩
    | true =>
      cases ht : env.createTableOk with
      | false =>
        have hstep : db.Rollback env s =
            ⟨s, [Event.openConn, Event.closeConn], some .tableFailed⟩ := by
          simp [DB.Rollback, hwb', openDB, ho, ht]
        rw [hstep]
        exact ⟨by simp, fun _ => by simp⟩
      | true =>
        have hopenDB : openDB env = .ok [Event.openConn] := by simp [openDB, ho, ht]
        by_cases hl : ((selectMigrations s.applied 1).foldl (fun _ v => v) "") = ""
        · have hstep : db.Rollback env s =
              ⟨s, [Event.openConn, Event.closeConn], some .nothingToRollBack⟩ := by
            simp [DB.Rollback, hwb', hopenDB, hl]
          rw [hstep]
          exact ⟨by simp, fun _ => by simp⟩
        · cases hf : findMigrationFileM env
              ((selectMigrations s.applied 1).foldl (fun _ v => v) "") with
          | error e =>
            have hstep : db.Rollback env s =
                ⟨s, [Event.openConn, Event.closeConn], some e⟩ := by
              simp [DB.Rollback, hwb', hopenDB, hl, hf]
            rw [hstep]
            exact ⟨by simp, fun _ => by simp⟩
          | ok filename =>
            cases hp : parseMigration (env.fileText filename) with
            | error e =>
              have hstep : db.Rollback env s =
                  ⟨s, [Event.openConn, Event.rollingBack filename, Event.closeConn],
                    some .parseFailed⟩ := by
                simp [DB.Rollback, hwb', hopenDB, hl, hf, hp]
              rw [hstep]
              exact ⟨by simp, fun _ => by simp⟩
            | ok pair =>
              obtain ⟨up, down⟩ := pair
              rcases hex : executeScript (useNative db) env.execFails s down.contents
                with ⟨st', ev, r'⟩
              have hco : ev.count Event.openConn = 0 := by
                have h := executeScript_count_open (useNative db) env.execFails s down.contents
                rw [hex] at h; exact h
              have hcc : ev.count Event.closeConn = 0 := by
                have h := executeScript_count_close (useNative db) env.execFails s down.contents
                rw [hex] at h; exact h
              cases r' with
              | some e =>
                have hstep : db.Rollback env s =
                    ⟨(if down.transaction then s else st'),
                      Event.openConn :: Event.rollingBack filename ::
                        (ev ++ [Event.closeConn]), some e⟩ := by
                  by_cases hT : down.transaction = true
                  · simp [DB.Rollback, hwb', hopenDB, hl, hf, hp, hT, txScope, hex]
                  · have hT' : down.transaction = false := by simpa using hT
                    simp [DB.Rollback, hwb', hopenDB, hl, hf, hp, hT', hex]
                rw [hstep]
                constructor
                · simp [List.count_cons, List.count_append, hco, hcc]
                · intro _
                  simp [List.count_cons, List.count_append, hco]
              | none =>
                obtain ⟨hd1, hd2⟩ := DumpSchema_counts db env (⟨st'.applied.filter (fun x => x ≠ ((selectMigrations s.applied 1).foldl (fun _ v => v) "")), st'.ops⟩ : DbState)
                simp only [ne_eq, decide_not] at hd1 hd2
                have hstep : db.Rollback env s = ⟨(⟨st'.applied.filter (fun x => x ≠ ((selectMigrations s.applied 1).foldl (fun _ v => v) "")), st'.ops⟩ : DbState), Event.openConn :: Event.rollingBack filename :: ((ev ++ [Event.deleteVersion ((selectMigrations s.applied 1).foldl (fun _ v => v) "")]) ++ ((if db.autoDumpSchema then (db.DumpSchema env (⟨st'.applied.filter (fun x => x ≠ ((selectMigrations s.applied 1).foldl (fun _ v => v) "")), st'.ops⟩ : DbState)).trace else []) ++ [Event.closeConn])), none⟩ := by
                  by_cases hT : down.transaction = true
                  · simp [DB.Rollback, hwb', hopenDB, hl, hf, hp, hT, txScope, hex]
                  · have hT' : down.transaction = false := by simpa using hT
                    simp [DB.Rollback, hwb', hopenDB, hl, hf, hp, hT', hex]
                rw [hstep]
                constructor
                · by_cases had : db.autoDumpSchema = true
                  · simp [had, List.count_cons, List.count_append, hco, hcc, hd1]
                  · have had' : db.autoDumpSchema = false := by simpa using had
                    simp [had', List.count_cons, List.count_append, hco, hcc]
                · intro had
                  simp [had, List.count_cons, List.count_append, hco]

theorem checkMigrationsStatus_spec (env : Env) (s : DbState) (hrd : env.readDirOk = true)
    (hM : matchingFiles env ≠ []) (hopen : env.openOk = true)
    (htab : env.createTableOk = true) :
    checkMigrationsStatus env s = .ok ((matchingFiles env).map
      (fun f => (f, s.applied.contains (migrationVersion f))),
      [Event.openConn, Event.closeConn]) := by
  have hfind : findMigrationFilesM env.listing env.readDirOk migrationFileMatch =
      .ok (matchingFiles env) := by rw [hrd]; rfl
  have hMe : (matchingFiles env).isEmpty = false := by simpa [List.isEmpty_iff] using hM
  have hopenDB : openDB env = .ok [Event.openConn] := by simp [openDB, hopen, htab]
  have hsel : selectMigrations s.applied (-1) = s.applied := rfl
  simp [checkMigrationsStatus, hfind, hMe, hopenDB, hsel]

theorem Status_spec (db : DB) (env : Env) (s : DbState) (quiet : Bool)
    (hrd : env.readDirOk = true) (hM : matchingFiles env ≠ [])
    (hopen : env.openOk = true) (htab : env.createTableOk = true) :
    (db.Status env s quiet).err = none ∧
      (quiet = true → (db.Status env s quiet).output = []) ∧
      (db.Status env s quiet).ret = ((pendingFiles env s).length : Int) := by
  have hcall := checkMigrationsStatus_spec env s hrd hM hopen htab
  have hA : ((matchingFiles env).map
        (fun f => (f, s.applied.contains (migrationVersion f)))).countP (fun r => r.2) =
      (matchingFiles env).countP (fun f => s.applied.contains (migrationVersion f)) := by
    rw [List.countP_map]; rfl
  have hP : (pendingFiles env s).length =
      (matchingFiles env).countP (fun f => !(s.applied.contains (migrationVersion f))) := by
    rw [pendingFiles, ← List.countP_eq_length_filter]
  have hsum := List.length_eq_countP_add_countP
    (fun f => s.applied.contains (migrationVersion f)) (matchingFiles env)
  have hcong : (matchingFiles env).countP
        (fun a => decide ¬((fun f => s.applied.contains (migrationVersion f)) a = true)) =
      (matchingFiles env).countP (fun f => !(s.applied.contains (migrationVersion f))) := by
    apply List.countP_congr
    intro a _
    by_cases hc : s.applied.contains (migrationVersion a) = true
    · simp [hc]
    · have hc' : s.applied.contains (migrationVersion a) = false := by simpa using hc
      simp [hc']
  simp only [DB.Status, hcall]
  refine ⟨trivial, fun hq => by simp [hq], ?_⟩
  simp only [hA, List.length_map]
  rw [hcong] at hsum
  rw [hP]
  omega

theorem Status_counts (db : DB) (env : Env) (s : DbState) (quiet : Bool) :
    (db.Status env s quiet).trace.count Event.openConn =
        (db.Status env s quiet).trace.count Event.closeConn ∧
      (db.Status env s quiet).trace.count Event.openConn ≤ 1 := by
  cases hrd : env.readDirOk with
  | false =>
    have hstep : checkMigrationsStatus env s = .error ([], .dirNotFound) := by
      simp [checkMigrationsStatus, findMigrationFilesM, hrd]
    simp [DB.Status, hstep]
  | true =>
    have hfind : findMigrationFilesM env.listing env.readDirOk migrationFileMatch =
        .ok (matchingFiles env) := by rw [hrd]; rfl
    by_cases hM : (matchingFiles env).isEmpty = true
    · have hstep : checkMigrationsStatus env s = .error ([], .noMigrationFiles) := by
        simp [checkMigrationsStatus, hfind, hM]
      simp [DB.Status, hstep]
    · have hMe : (matchingFiles env).isEmpty = false := by simpa using hM
      cases ho : env.openOk with
      | false =>
        have hstep : checkMigrationsStatus env s = .error ([], .openFailed) := by
          simp [checkMigrationsStatus, hfind, hMe, openDB, ho]
        simp [DB.Status, hstep]
      | true =>
        cases ht : env.createTableOk with
        | false =>
          have hstep : checkMigrationsStatus env s =
              .error ([Event.openConn, Event.closeConn], .tableFailed) := by
            simp [checkMigrationsStatus, hfind, hMe, openDB, ho, ht]
          simp [DB.Status, hstep]
        | true =>
          have hopenDB : openDB env = .ok [Event.openConn] := by simp [openDB, ho, ht]
          have hsel : selectMigrations s.applied (-1) = s.applied := rfl
          have hstep : checkMigrationsStatus env s = .ok ((matchingFiles env).map
              (fun f => (f, s.applied.contains (migrationVersion f))),
              [Event.openConn, Event.closeConn]) := by
            simp [checkMigrationsStatus, hfind, hMe, hopenDB, hsel]
          simp [DB.Status, hstep]

theorem openDB_listing (env : Env) (l' : List String) :
    openDB { env with listing := l' } = openDB env := rfl

theorem DumpSchema_listing (db : DB) (env : Env) (l' : List String) :
    db.DumpSchema { env with listing := l' } = db.DumpSchema env := rfl

theorem Migrate_listing_perm (db : DB) (env : Env) (s : DbState) (l' : List String)
    (hperm : l'.Perm env.listing) :
    db.Migrate { env with listing := l' } s = db.Migrate env s := by
  have hsort : sortStrings (l'.filter migrationFileMatch) =
      sortStrings (env.listing.filter migrationFileMatch) :=
    sortStrings_eq_of_perm (hperm.filter _)
  unfold DB.Migrate findMigrationFilesM
  dsimp only
  rw [hsort, openDB_listing, DumpSchema_listing]

/-! ## Lemmas: connection wait -/

theorem waitGo_isSome (probe : Nat → Option String) (interval timeout : Nat) :
    ∀ (fuel i k : Nat) (e : String), timeout ≤ i + fuel * interval →
      (waitGo probe interval timeout (fuel + 1) i k e).isSome = true
  | 0, i, k, e, h => by
    simp only [Nat.zero_mul, Nat.add_zero] at h
    simp [waitGo, Nat.not_lt.mpr h]
  | fuel + 1, i, k, e, h => by
    simp only [waitGo]
    by_cases hi : i < timeout
    · simp only [hi, if_true]
      cases hp : probe k
      · simp
      · rename_i e'
        refine waitGo_isSome probe interval timeout fuel (i + interval) (k + 1) e' ?_
        have hmul : (fuel + 1) * interval = fuel * interval + interval := Nat.succ_mul _ _
        omega
    · simp [hi]

theorem waitGo_zero_diverges (timeout : Nat) (ht : 0 < timeout) (msg : String) :
    ∀ (fuel k : Nat) (e : String),
      waitGo (fun _ => some msg) 0 timeout fuel 0 k e = none
  | 0, _, _ => rfl
  | fuel + 1, k, e => by
    simp only [waitGo, if_pos ht]
    exact waitGo_zero_diverges timeout ht msg fuel (k + 1) msg

theorem pendingFiles_sorted (env : Env) (s : DbState) :
    (pendingFiles env s).Pairwise (fun a b => strLeB a b = true) :=
  List.Pairwise.sublist (List.filter_sublist _) (sortStrings_pairwise _)

theorem takeWhile_of_all (p : String → Bool) :
    ∀ l : List String, l.all p = true → l.takeWhile p = l
  | [], _ => rfl
  | a :: l, h => by
    simp only [List.all_cons, Bool.and_eq_true] at h
    simp [List.takeWhile_cons, h.1, takeWhile_of_all p l h.2]

/-! ## Claim theorems -/

/-- C1 (counterexample): on a fixture of five discovered files of which two
are applied, `Status(quiet=true)` returns the single integer 3 — the pending
count — and produces no output; it does not return the pair
(appliedCount, pendingCount) = (2, 3) the claim describes: the applied count
2 appears nowhere in the returned value. -/
theorem status_pair_counterexample :
    (dbBase.Status envStatus sStatus true).ret = 3 ∧
      (dbBase.Status envStatus sStatus true).ret ≠ 2 ∧
      (dbBase.Status envStatus sStatus true).output = [] :=
  ⟨by decide, by decide, by decide⟩

/-- C1 (amended): for every migrations directory with at least one matching
file and every applied-version set, `Status(quiet)` computes, per discovered
file in sorted directory order, whether its version is in the applied set
(`checkMigrationsStatus` returns exactly that pairing), and returns the
pending count (the applied count is computed for the non-quiet summary but
is not part of the return value); when quiet is true it produces no per-line
output, so on a fixture of 2 applied and 3 pending files it returns 3. -/
theorem status_spec_amended (db : DB) (env : Env) (s : DbState) (quiet : Bool)
    (hrd : env.readDirOk = true) (hM : matchingFiles env ≠ [])
    (hopen : env.openOk = true) (htab : env.createTableOk = true) :
    checkMigrationsStatus env s = .ok ((matchingFiles env).map
        (fun f => (f, s.applied.contains (migrationVersion f))),
        [Event.openConn, Event.closeConn]) ∧
      (db.Status env s quiet).err = none ∧
      (quiet = true → (db.Status env s quiet).output = []) ∧
      (db.Status env s quiet).ret = ((pendingFiles env s).length : Int) :=
  ⟨checkMigrationsStatus_spec env s hrd hM hopen htab,
   (Status_spec db env s quiet hrd hM hopen htab).1,
   (Status_spec db env s quiet hrd hM hopen htab).2.1,
   (Status_spec db env s quiet hrd hM hopen htab).2.2⟩

/-- C1 (witness): the amended claim at the 2-applied/3-pending fixture:
no error, no output, return value 3. -/
theorem status_spec_amended_witness :
    (dbBase.Status envStatus sStatus true).err = none ∧
      (dbBase.Status envStatus sStatus true).output = [] ∧
      (dbBase.Status envStatus sStatus true).ret = 3 :=
  ⟨(status_spec_amended dbBase envStatus sStatus true rfl (by decide) rfl rfl).2.1,
   (status_spec_amended dbBase envStatus sStatus true rfl (by decide) rfl rfl).2.2.1 rfl,
   by
     rw [(status_spec_amended dbBase envStatus sStatus true rfl (by decide) rfl rfl).2.2.2]
     decide⟩

/-- C2 (counterexample): with the two pending files "1a.sql" (version "1")
and "10.sql" (version "10"), Migrate applies "10.sql" first — sorted
filename order — so the version sequence ("10", "1") is not in ascending
lexicographic version order ("1" < "10"). -/
theorem migrate_version_order_counterexample :
    applyingOf ((dbBase.Migrate envOrd s0).trace) = ["10.sql", "1a.sql"] ∧
      (applyingOf ((dbBase.Migrate envOrd s0).trace)).map migrationVersion = ["10", "1"] ∧
      strLeB "1" "10" = true ∧ strLeB "10" "1" = false ∧ ("1" : String) ≠ "10" ∧
      (dbBase.Migrate envOrd s0).err = none :=
  ⟨by decide, by decide, by decide, by decide, by decide, by decide⟩

/-- C2 (amended): Migrate processes exactly the matching files whose version
is absent from the applied set, in ascending lexicographic filename order
(which equals version order when versions share a fixed width), independent
of directory-listing order; for each it parses the Up script, executes it
under that section's transaction policy with its bookkeeping insert in the
same scope (on full success the applied set is extended by exactly the
pending versions, in order), and halts the remaining batch at the first
failure. -/
theorem migrate_spec_amended (db : DB) (env : Env) (s : DbState)
    (hrd : env.readDirOk = true) (hopen : env.openOk = true)
    (htab : env.createTableOk = true) (hw : db.waitBefore = false) :
    applyingOf ((db.Migrate env s).trace) =
        haltAt (fileApplyErr db env) (pendingFiles env s) ∧
      (pendingFiles env s).Pairwise (fun a b => strLeB a b = true) ∧
      (db.Migrate env s).state.applied = s.applied ++
        ((pendingFiles env s).takeWhile (fun g => !(fileApplyErr db env g))).map
          migrationVersion ∧
      ((db.Migrate env s).err = none ↔ (matchingFiles env ≠ [] ∧
        (pendingFiles env s).all (fun g => !(fileApplyErr db env g)) = true)) ∧
      (∀ l', l'.Perm env.listing →
        db.Migrate { env with listing := l' } s = db.Migrate env s) :=
  ⟨(Migrate_spec db env s hrd hopen htab hw).1,
   pendingFiles_sorted env s,
   (Migrate_spec db env s hrd hopen htab hw).2.1,
   (Migrate_spec db env s hrd hopen htab hw).2.2.1,
   fun l' hp => Migrate_listing_perm db env s l' hp⟩

/-- C2 (witness): the amended claim at the two-file fixture, including the
directory-listing-order independence at a concrete permutation. -/
theorem migrate_spec_amended_witness :
    applyingOf ((dbBase.Migrate envOrd s0).trace) =
        haltAt (fileApplyErr dbBase envOrd) (pendingFiles envOrd s0) ∧
      (pendingFiles envOrd s0).Pairwise (fun a b => strLeB a b = true) ∧
      dbBase.Migrate { envOrd with listing := ["10.sql", "1a.sql"] } s0 =
        dbBase.Migrate envOrd s0 :=
  ⟨(migrate_spec_amended dbBase envOrd s0 rfl rfl rfl rfl).1,
   (migrate_spec_amended dbBase envOrd s0 rfl rfl rfl rfl).2.1,
   (migrate_spec_amended dbBase envOrd s0 rfl rfl rfl rfl).2.2.2.2 ["10.sql", "1a.sql"]
     (by decide)⟩

/-- C4: with the transaction successfully begun, `doTransaction` commits if
and only if the body succeeds entirely; when the body fails, a rollback is
attempted and, if the rollback itself fails, the rollback error is returned
in place of the body's original error, otherwise the body's original error
is returned (and the state reverts to the pre-transaction state). -/
theorem doTransaction_spec {σ ε : Type} (s : σ) (body : σ → σ × Option ε)
    (rbErr cErr : Option ε) :
    (TxEvent.commitTx ∈ (doTransaction s none body rbErr cErr).events ↔
        (body s).2 = none) ∧
      ((body s).2 = none → cErr = none →
        (doTransaction s none body rbErr cErr).state = (body s).1 ∧
          (doTransaction s none body rbErr cErr).err = none) ∧
      (∀ e, (body s).2 = some e →
        TxEvent.rollbackTx ∈ (doTransaction s none body rbErr cErr).events ∧
          (doTransaction s none body rbErr cErr).err = some (rbErr.getD e) ∧
          (doTransaction s none body rbErr cErr).state = s) := by
  rcases hb : body s with ⟨s', r⟩
  cases r with
  | none =>
    cases cErr with
    | none => simp [doTransaction, hb]
    | some ce => simp [doTransaction, hb]
  | some e' =>
    cases rbErr with
    | none => simp [doTransaction, hb]
    | some re => simp [doTransaction, hb]

/-- C4 (witness): a failing body with a failing rollback at concrete inputs:
the rollback error supersedes the body's error. -/
theorem doTransaction_spec_witness :
    (doTransaction (0 : Nat) none (fun n => (n + 1, some "body failed"))
        (some "rollback failed") none).err = some "rollback failed" :=
  ((doTransaction_spec (0 : Nat) (fun n => (n + 1, some "body failed"))
      (some "rollback failed") none).2.2 "body failed" rfl).2.1

/-- C5: with the connection and bookkeeping provisioning succeeding, when
the applied-version set is empty, Rollback fails with NothingToRollBack and
performs no mutation — final state equals the initial state and the trace is
the bare connection open/close; moreover the bookkeeping query is bounded to
the latest 1 entry (`selectMigrations applied 1`), so every deleted version
is the most-recently-applied one and every file resolved for rollback is the
one `findMigrationFile` returns for that single version. -/
theorem rollback_empty_and_bounded (db : DB) (env : Env) (s : DbState)
    (hopen : env.openOk = true) (htab : env.createTableOk = true)
    (hw : db.waitBefore = false) :
    (s.applied = [] → db.Rollback env s =
        ⟨s, [Event.openConn, Event.closeConn], some .nothingToRollBack⟩) ∧
      (∀ v, Event.deleteVersion v ∈ (db.Rollback env s).trace →
        s.applied.getLast? = some v) ∧
      (∀ f, Event.rollingBack f ∈ (db.Rollback env s).trace →
        findMigrationFileM env ((selectMigrations s.applied 1).foldl (fun _ v => v) "") =
          .ok f) :=
  ⟨(Rollback_spec db env s hopen htab hw).1,
   (Rollback_spec db env s hopen htab hw).2.1,
   (Rollback_spec db env s hopen htab hw).2.2.1⟩

/-- C5 (witness): rollback on the empty state fails with NothingToRollBack,
leaves the state untouched and only opens and closes the connection. -/
theorem rollback_empty_witness :
    dbBase.Rollback envOne s0 =
      ⟨s0, [Event.openConn, Event.closeConn], some .nothingToRollBack⟩ :=
  (rollback_empty_and_bounded dbBase envOne s0 rfl rfl rfl).1 rfl

/-- C6: when a first Migrate run fully succeeds, a second run applies zero
migration files (no per-file progress events), leaves the applied-version
set unchanged, and succeeds. -/
theorem migrate_idempotent (db : DB) (env : Env) (s : DbState)
    (hrd : env.readDirOk = true) (hopen : env.openOk = true)
    (htab : env.createTableOk = true) (hw : db.waitBefore = false)
    (hok : (db.Migrate env s).err = none) :
    applyingOf ((db.Migrate env (db.Migrate env s).state).trace) = [] ∧
      (db.Migrate env (db.Migrate env s).state).state.applied =
        (db.Migrate env s).state.applied ∧
      (db.Migrate env (db.Migrate env s).state).err = none := by
  obtain ⟨h1, h2, h3, _⟩ := Migrate_spec db env s hrd hopen htab hw
  obtain ⟨hM, hall⟩ := h3.mp hok
  have happ1 : (db.Migrate env s).state.applied =
      s.applied ++ (pendingFiles env s).map migrationVersion := by
    rw [h2, takeWhile_of_all _ _ hall]
  have hpend2 : pendingFiles env (db.Migrate env s).state = [] := by
    rw [pendingFiles, List.filter_eq_nil_iff]
    intro f hf
    have hmem : migrationVersion f ∈ (db.Migrate env s).state.applied := by
      rw [happ1]
      by_cases hc : migrationVersion f ∈ s.applied
      · exact List.mem_append.mpr (Or.inl hc)
      · refine List.mem_append.mpr (Or.inr (List.mem_map.mpr ⟨f, ?_, rfl⟩))
        exact List.mem_filter.mpr ⟨hf, by simp [hc]⟩
    simp [hmem]
  obtain ⟨g1, g2, g3, _⟩ := Migrate_spec db env (db.Migrate env s).state hrd hopen htab hw
  refine ⟨?_, ?_, ?_⟩
  · rw [g1, hpend2]
    rfl
  · rw [g2, hpend2]
    simp
  · exact g3.mpr ⟨hM, by rw [hpend2]; rfl⟩

/-- C6 (witness): idempotence at the single-file fixture: the second run
reports no applied files and keeps the applied-version set. -/
theorem migrate_idempotent_witness :
    applyingOf ((dbBase.Migrate envOne (dbBase.Migrate envOne s0).state).trace) = [] ∧
      (dbBase.Migrate envOne (dbBase.Migrate envOne s0).state).state.applied =
        (dbBase.Migrate envOne s0).state.applied :=
  ⟨(migrate_idempotent dbBase envOne s0 rfl rfl rfl rfl (by decide)).1,
   (migrate_idempotent dbBase envOne s0 rfl rfl rfl rfl (by decide)).2.1⟩

/-- C7: when Migrate applies exactly one pending migration and succeeds,
and the subsequent Rollback succeeds, the applied-version set is restored
to exactly its pre-migrate content. -/
theorem migrate_rollback_roundtrip (db : DB) (env : Env) (s : DbState) (f : String)
    (hrd : env.readDirOk = true) (hopen : env.openOk = true)
    (htab : env.createTableOk = true) (hw : db.waitBefore = false)
    (hpend : pendingFiles env s = [f])
    (hmok : (db.Migrate env s).err = none)
    (hrok : (db.Rollback env (db.Migrate env s).state).err = none) :
    (db.Rollback env (db.Migrate env s).state).state.applied = s.applied := by
  obtain ⟨h1, h2, h3, _⟩ := Migrate_spec db env s hrd hopen htab hw
  obtain ⟨hM, hall⟩ := h3.mp hmok
  have happ1 : (db.Migrate env s).state.applied = s.applied ++ [migrationVersion f] := by
    rw [h2, takeWhile_of_all _ _ hall, hpend]
    rfl
  have hnotmem : migrationVersion f ∉ s.applied := by
    have hfmem : f ∈ pendingFiles env s := by
      rw [hpend]
      exact List.mem_cons_self f []
    have := (List.mem_filter.mp hfmem).2
    simpa using this
  obtain ⟨_, _, _, h4, _⟩ := Rollback_spec db env (db.Migrate env s).state hopen htab hw
  obtain ⟨v, hv1, hv2⟩ := h4 hrok
  rw [happ1, List.getLast?_concat] at hv1
  injection hv1 with hveq
  subst hveq
  rw [hv2, happ1, List.filter_append]
  have hkeep : s.applied.filter (fun x => x ≠ migrationVersion f) = s.applied :=
    List.filter_eq_self.mpr (fun a ha => by
      have hne : a ≠ migrationVersion f := fun hEq => hnotmem (hEq ▸ ha)
      simp [hne])
  rw [hkeep]
  simp

/-- C7 (witness): migrate-then-rollback at the single-file fixture returns
the applied-version set to empty. -/
theorem migrate_rollback_roundtrip_witness :
    (dbBase.Rollback envOne (dbBase.Migrate envOne s0).state).state.applied = s0.applied :=
  migrate_rollback_roundtrip dbBase envOne s0 "20200101000000_one.sql" rfl rfl rfl rfl
    (by decide) (by decide) (by decide)

/-- C8 (counterexample): with interval 0, timeout 60 and a probe that never
succeeds, the Wait loop's counter never advances (`i += 0`), so the loop
never exits: the run exceeds every iteration bound, refuting the claim that
Wait terminates for every probe, interval and timeout. -/
theorem wait_diverges_counterexample :
    waitNeverReturns (fun _ => some "connection refused") 0 60 := by
  intro fuel
  unfold Wait
  exact waitGo_zero_diverges 60 (by decide) "connection refused" fuel 1 "connection refused"

/-- C8 (amended): Wait calls the probe once and returns success immediately
when it succeeds; otherwise it retries, adding interval to the elapsed-time
counter each iteration, until a probe succeeds or the counter reaches the
timeout, failing with an error carrying the last probe error; it terminates
whenever interval is positive (within timeout/interval + 2 probe attempts)
or the probe eventually succeeds — with interval=0 and a probe failing
exactly 3 times then succeeding, it returns success on the 4th attempt —
but with interval=0 and a never-succeeding probe the loop never exits. -/
theorem wait_spec_amended (probe : Nat → Option String) (interval timeout : Nat)
    (h : 0 < interval) :
    (probe 0 = none → ∀ fuel, Wait probe interval timeout fuel = some (.success 1)) ∧
      (Wait probe interval timeout (timeout / interval + 2)).isSome = true ∧
      Wait probe3 0 60 10 = some (.success 4) ∧
      Wait (fun _ => some "boom") 5 10 10 = some (.timedOut 3 "boom") := by
  refine ⟨?_, ?_, by decide, by decide⟩
  · intro hp fuel
    unfold Wait
    rw [hp]
  · unfold Wait
    cases hp : probe 0 with
    | none => rfl
    | some e =>
      refine waitGo_isSome probe interval timeout (timeout / interval + 1) 0 1 e ?_
      have e1 := Nat.div_add_mod timeout interval
      have e2 := Nat.mod_lt timeout h
      calc timeout = interval * (timeout / interval) + timeout % interval := e1.symm
        _ ≤ interval * (timeout / interval) + interval := by omega
        _ = (timeout / interval + 1) * interval := by ring
        _ = 0 + (timeout / interval + 1) * interval := (Nat.zero_add _).symm

/-- C8 (witness): the amended claim at concrete inputs: a positive interval
terminates within the bound, and the 3-failures-then-success probe at
interval 0 succeeds on the 4th attempt. -/
theorem wait_spec_amended_witness :
    (Wait (fun _ => some "connection refused") 1 3 5).isSome = true ∧
      Wait probe3 0 60 10 = some (.success 4) :=
  ⟨(wait_spec_amended (fun _ => some "connection refused") 1 3 (by decide)).2.1,
   (wait_spec_amended (fun _ => some "connection refused") 1 3 (by decide)).2.2.1⟩

/-- C9 (counterexample): a successful Migrate with AutoDumpSchema enabled
opens two connections — its own plus the nested one that the best-effort
schema dump opens before the deferred close of the first runs — refuting
"exactly one live connection is opened per top-level operation". -/
theorem migrate_two_connections_counterexample :
    (dbDump.Migrate envOne s0).trace.count Event.openConn = 2 ∧
      (dbDump.Migrate envOne s0).err = none ∧ (2 : Nat) ≠ 1 :=
  ⟨by decide, by decide, by decide⟩

/-- C9 (amended): every top-level operation releases every connection it
opens on every exit path — open and close events always balance — and opens
at most one connection for its own work: Status and DumpSchema open at most
one, and Migrate and Rollback open at most one whenever AutoDumpSchema is
disabled (with it enabled, the nested best-effort dump opens a second,
also released). -/
theorem connection_balance_amended (db : DB) (env : Env) (s : DbState) (quiet : Bool) :
    (db.Migrate env s).trace.count Event.openConn =
        (db.Migrate env s).trace.count Event.closeConn ∧
      (db.Rollback env s).trace.count Event.openConn =
        (db.Rollback env s).trace.count Event.closeConn ∧
      (db.Status env s quiet).trace.count Event.openConn =
        (db.Status env s quiet).trace.count Event.closeConn ∧
      (db.DumpSchema env s).trace.count Event.openConn =
        (db.DumpSchema env s).trace.count Event.closeConn ∧
      (db.DumpSchema env s).trace.count Event.openConn ≤ 1 ∧
      (db.Status env s quiet).trace.count Event.openConn ≤ 1 ∧
      (db.autoDumpSchema = false →
        (db.Migrate env s).trace.count Event.openConn ≤ 1 ∧
          (db.Rollback env s).trace.count Event.openConn ≤ 1) :=
  ⟨(Migrate_counts db env s).1, (Rollback_counts db env s).1,
   (Status_counts db env s quiet).1, (DumpSchema_counts db env s).1,
   (DumpSchema_counts db env s).2, (Status_counts db env s quiet).2,
   fun h => ⟨(Migrate_counts db env s).2 h, (Rollback_counts db env s).2 h⟩⟩

/-- C9 (witness): the amended claim at a concrete successful Migrate with
AutoDumpSchema disabled: balanced open/close and at most one connection. -/
theorem connection_balance_witness :
    (dbBase.Migrate envOne s0).trace.count Event.openConn =
        (dbBase.Migrate envOne s0).trace.count Event.closeConn ∧
      (dbBase.Migrate envOne s0).trace.count Event.openConn ≤ 1 :=
  ⟨(connection_balance_amended dbBase envOne s0 true).1,
   ((connection_balance_amended dbBase envOne s0 true).2.2.2.2.2.2 rfl).1⟩

/-- C10: the execution mode used by every script execution during Migrate
and Rollback equals `useNative db = nativeEngine && scheme ≠ "oracle"`
(db.go line 352/468): the "oracle" scheme forces emulated (statement-split)
mode even when the NativeEngine flag is true, and native mode is used only
when the flag is set and the scheme is not "oracle". -/
theorem oracle_emulated_mode (db : DB) (env : Env) (s : DbState)
    (hrd : env.readDirOk = true) (hopen : env.openOk = true)
    (htab : env.createTableOk = true) (hw : db.waitBefore = false) :
    (db.scheme = "oracle" → useNative db = false) ∧
      useNative db = (db.nativeEngine && !(db.scheme = "oracle" : Bool)) ∧
      (∀ b, Event.engineMode b ∈ (db.Migrate env s).trace → b = useNative db) ∧
      (∀ b, Event.engineMode b ∈ (db.Rollback env s).trace → b = useNative db) :=
  ⟨fun h => by simp [useNative, h], rfl,
   (Migrate_spec db env s hrd hopen htab hw).2.2.2,
   (Rollback_spec db env s hopen htab hw).2.2.2.2⟩

/-- C10 (witness): an oracle-scheme configuration with NativeEngine set
executes its migration script in emulated mode. -/
theorem oracle_emulated_mode_witness :
    Event.engineMode false ∈ (dbOracle.Migrate envOne s0).trace ∧
      false = useNative dbOracle :=
  ⟨by decide,
   (oracle_emulated_mode dbOracle envOne s0 rfl rfl rfl rfl).2.2.1 false (by decide)⟩
